import Mathlib

/-!
# Verification of the financial-metrics extraction pipeline

A shallow embedding in Lean 4 of the core services of the `ai-finacial-agent`
repository (label standardization, period parsing, candidate generation,
deterministic validation, derived-metric computation, table deduplication,
section merging and LLM-adjudication control flow), together with theorems
settling the specification claims about those services.

Conventions used throughout:

* Python `Decimal` values are modelled as `Rat` (the code only ever adds,
  subtracts, multiplies and divides by nonzero values in the paths treated
  here, so exact rational arithmetic is faithful).
* Python `str` is modelled as `String`; regular expressions are hand-compiled
  into deterministic matcher functions, each documented with the exact regex
  it implements.
* Python exceptions (invalid `date(...)` construction, `dict` `KeyError`) are
  modelled with `Except PyErr`.
* Functions keep the names of their Python counterparts (snake case turned
  into camel case where needed).
-/

namespace FinAgent

/-! ## Python primitive helpers: characters and strings -/

/-- ASCII whitespace recognized by Python `str.strip` and by `\s` in `re`
(space, tab, newline, carriage return, vertical tab, form feed). -/
def pyIsSpace (c : Char) : Bool :=
  c == ' ' || c == '\t' || c == '\n' || c == '\r' || c == '\x0b' || c == '\x0c'

/-- Python `\d` on the ASCII inputs used here: the characters 0-9. -/
def isDig (c : Char) : Bool :=
  48 ≤ c.toNat && c.toNat ≤ 57

/-- Python `\w` (word character) on ASCII: letters, digits and underscore. -/
def isWordChar (c : Char) : Bool :=
  isDig c || (65 ≤ c.toNat && c.toNat ≤ 90) || (97 ≤ c.toNat && c.toNat ≤ 122) || c == '_'

/-- ASCII letter, as matched by `[A-Za-z]`. -/
def isAsciiAlpha (c : Char) : Bool :=
  (65 ≤ c.toNat && c.toNat ≤ 90) || (97 ≤ c.toNat && c.toNat ≤ 122)

/-- Python `str.lower` on one ASCII character. -/
def pyLowerChar (c : Char) : Char :=
  if 65 ≤ c.toNat && c.toNat ≤ 90 then Char.ofNat (c.toNat + 32) else c

/-- Python `str.lower` for the ASCII strings treated here. -/
def pyLower (cs : List Char) : List Char :=
  cs.map pyLowerChar

/-- Drop leading Python whitespace. -/
def dropWsLeft : List Char → List Char
  | [] => []
  | c :: cs => if pyIsSpace c then dropWsLeft cs else c :: cs

/-- Python `str.strip`: whitespace removed from both ends. -/
def pyStrip (cs : List Char) : List Char :=
  (dropWsLeft ((dropWsLeft cs.reverse).reverse))

/-- Does `cs` start with the literal `pat`? -/
def startsList : List Char → List Char → Bool
  | _, [] => true
  | [], _ :: _ => false
  | c :: cs, p :: ps => c == p && startsList cs ps

/-- Python substring containment `pat in cs`. -/
def containsList : List Char → List Char → Bool
  | [], p => p.isEmpty
  | c :: cs, p => startsList (c :: cs) p || containsList cs p

/-- Python `pat in s` on strings. -/
def strContains (s pat : String) : Bool :=
  containsList s.data pat.data

/-- Case-insensitive containment, as used with `re.IGNORECASE` searches for
plain-literal alternatives. -/
def strContainsCI (s pat : String) : Bool :=
  containsList (pyLower s.data) (pyLower pat.data)

/-! ## Decimal digit strings (Python `str(int)` / `int(str)`) -/

/-- Fuel-driven digit expansion of a natural number, most significant first.
`natDigitsGo n n` is the digit list of `n` (the fuel `n` always suffices). -/
def natDigitsGo : Nat → Nat → List Nat
  | 0, n => [n % 10]
  | f + 1, n => if n < 10 then [n] else natDigitsGo f (n / 10) ++ [n % 10]

/-- Decimal digits of `n`, most significant first. -/
def natDigits (n : Nat) : List Nat :=
  natDigitsGo n n

/-- Digit value to ASCII character. -/
def digitToChar (d : Nat) : Char :=
  Char.ofNat (48 + d)

/-- ASCII digit character to its value. -/
def digitVal (c : Char) : Nat :=
  c.toNat - 48

/-- Python `str(n)` for a natural number. -/
def pyStrNat (n : Nat) : String :=
  ⟨(natDigits n).map digitToChar⟩

/-- Value of a digit list read most-significant first (Python `int` on a
digit string, leading zeros permitted). -/
def digitsVal (ds : List Nat) : Nat :=
  ds.foldl (fun acc d => 10 * acc + d) 0

/-! ## Python exceptions and dates -/

/-- The Python exceptions that can escape the embedded code paths:
`ValueError` (invalid `datetime.date`), `KeyError` (missing `dict` key) and
division by zero (`Decimal` `DivisionByZero`).  The last one is introduced
so that theorems can state that it never occurs. -/
inductive PyErr where
  | valueError
  | keyError
  | divByZero
  deriving DecidableEq, Repr

/-- Decidable equality for `Except` results, used to evaluate the embedded
functions on concrete inputs. -/
instance {ε α : Type} [DecidableEq ε] [DecidableEq α] :
    DecidableEq (Except ε α) := fun x y =>
  match x, y with
  | .ok a, .ok b =>
    if h : a = b then isTrue (by rw [h]) else isFalse (by simp [h])
  | .error a, .error b =>
    if h : a = b then isTrue (by rw [h]) else isFalse (by simp [h])
  | .ok _, .error _ => isFalse (by simp)
  | .error _, .ok _ => isFalse (by simp)

/-- A `datetime.date`: the constructor below enforces the same validity
conditions as Python (`1 ≤ year ≤ 9999`, month and day in range, Gregorian
leap years). -/
structure PyDate where
  year : Nat
  month : Nat
  day : Nat
  deriving DecidableEq, Repr

/-- Gregorian leap-year test (as in Python `calendar`). -/
def isLeapYear (y : Nat) : Bool :=
  (y % 4 == 0 && y % 100 != 0) || y % 400 == 0

/-- Days in a month of a given year. -/
def daysInMonth (y m : Nat) : Nat :=
  if m == 2 then (if isLeapYear y then 29 else 28)
  else if m == 4 || m == 6 || m == 9 || m == 11 then 30
  else 31

/-- `datetime.date(y, m, d)`; raises `ValueError` exactly when Python would.
The year argument is an `Int` because the code computes `year - 1`. -/
def mkDate (y : Int) (m d : Nat) : Except PyErr PyDate :=
  if 1 ≤ y ∧ y ≤ 9999 ∧ 1 ≤ m ∧ m ≤ 12 ∧ 1 ≤ d ∧ d ≤ daysInMonth y.toNat m then
    .ok ⟨y.toNat, m, d⟩
  else
    .error .valueError

/-! ## Data model

The record types below carry exactly the fields that the embedded services
read or write.  `CandidateValue.candidate_id` is produced by `uuid.uuid4()`
in the source; ids are threaded through unchanged and no claim depends on
their generation, so candidates are built with whatever id the test data
supplies. -/

/-- `EvidenceSource` as used by the candidate generator. -/
inductive EvidenceSource where
  | table_cell
  | text_block
  deriving DecidableEq, Repr

/-- `CandidateValue` with the fields used by the services
(`candidate_generator.py`, `validators.py`, `llm_adjudicator.py`). -/
structure CandidateValue where
  candidate_id : String
  metric_name : String
  value : Rat
  currency : String
  scale : String
  period_end_date : Option PyDate
  section_type : String
  source : EvidenceSource
  confidence_score : Rat
  evidence : List (String × Option String)
  deriving DecidableEq, Repr

/-- `ExtractionMethod`. -/
inductive ExtractionMethod where
  | table
  | text
  | calculated
  deriving DecidableEq, Repr

/-- `EntityType`. -/
inductive EntityType where
  | consolidated
  | parent
  | subsidiary
  deriving DecidableEq, Repr

/-- `FinancialMetric` with the fields used by the adjudicator and the
derived-metrics computer. -/
structure FinancialMetric where
  metric_id : String
  metric_name : String
  value : Rat
  currency : String
  scale : String
  period_end_date : PyDate
  entity_type : EntityType
  extraction_method : Option ExtractionMethod
  notes : Option String
  llm_reasoning : Option String
  llm_confidence : Option Rat
  deriving DecidableEq, Repr

/-- `ValidationStatus` as used by the validator. -/
inductive ValidationStatus where
  | valid
  | needs_review
  | invalid
  deriving DecidableEq, Repr

/-! ## Label standardizer (`src/utils/periods.py`, class `LabelStandardizer`) -/

/-- `STANDARD_LABELS`: the fixed canonical-label table, in Python dict
insertion order (which `_fuzzy_match` iterates in). -/
def STANDARD_LABELS : List (String × List String) :=
  [ ("revenue", ["revenue", "total revenue", "net revenue", "sales", "turnover", "net sales"]),
    ("gross_profit", ["gross profit", "gross margin"]),
    ("operating_profit", ["operating profit", "operating income", "ebit", "operating earnings"]),
    ("net_income", ["net income", "net profit", "profit for the year", "profit for the period", "net earnings"]),
    ("ebitda", ["ebitda", "adjusted ebitda"]),
    ("total_assets", ["total assets", "assets"]),
    ("current_assets", ["current assets"]),
    ("non_current_assets", ["non-current assets", "non current assets", "fixed assets"]),
    ("total_liabilities", ["total liabilities", "liabilities"]),
    ("current_liabilities", ["current liabilities"]),
    ("non_current_liabilities", ["non-current liabilities", "non current liabilities", "long-term liabilities"]),
    ("total_equity", ["total equity", "shareholders\x27 equity", "stockholders\x27 equity", "equity"]),
    ("retained_earnings", ["retained earnings", "accumulated profits"]),
    ("operating_cash_flow", ["cash from operating activities", "operating cash flow", "net cash from operations"]),
    ("investing_cash_flow", ["cash from investing activities", "investing cash flow", "net cash used in investing"]),
    ("financing_cash_flow", ["cash from financing activities", "financing cash flow", "net cash from financing"]),
    ("free_cash_flow", ["free cash flow", "fcf"]) ]

/-- The canonical label keys. -/
def stdKeys : List String :=
  STANDARD_LABELS.map (·.1)

/-- `_build_reverse_mapping`: pairs `(variation.lower().strip(), standard)`
in insertion order.  (The variant strings are already lowercase and
stripped, but the operations are applied as in the source.) -/
def reversePairs : List (String × String) :=
  STANDARD_LABELS.foldr (fun p acc =>
    (p.2.map (fun v => (⟨pyStrip (pyLower v.data)⟩, p.1))) ++ acc) []

/-- Python dict lookup on `reverse_map` (later insertions shadow earlier
ones, hence the lookup scans from the right). -/
def revLookup (k : String) : Option String :=
  (reversePairs.reverse.find? (fun p => p.1 == k)).map (·.2)

/-- One step of `re.sub(r'\s*\(.*?\)\s*', '', s)`: if a match of the pattern
starts at the current position, return the remainder after the match.  The
non-greedy `.*?` reaches the first `)` and `.` does not cross a newline. -/
def findCloseParen : List Char → Option (List Char)
  | [] => none
  | c :: cs => if c == ')' then some cs
               else if c == '\n' then none
               else findCloseParen cs

/-- Try to match `\s*\(.*?\)\s*` at the head of `cs`. -/
def matchParenAt (cs : List Char) : Option (List Char) :=
  match dropWsLeft cs with
  | '(' :: rest =>
    match findCloseParen rest with
    | some after => some (dropWsLeft after)
    | none => none
  | _ => none

/-- `re.sub(r'\s*\(.*?\)\s*', '', s)`: scan left to right, removing each
leftmost match (fuel-driven; every step consumes at least one character). -/
def stripParensGo : Nat → List Char → List Char
  | 0, cs => cs
  | f + 1, [] => []
  | f + 1, c :: cs =>
    match matchParenAt (c :: cs) with
    | some rest => stripParensGo f rest
    | none => c :: stripParensGo f cs

/-- `re.sub(r'\s+', ' ', s)`: collapse each whitespace run to one space. -/
def collapseWsGo : Nat → List Char → List Char
  | 0, cs => cs
  | f + 1, [] => []
  | f + 1, c :: cs =>
    if pyIsSpace c then ' ' :: collapseWsGo f (dropWsLeft cs)
    else c :: collapseWsGo f cs

/-- The cleaning phase of `standardize_label`: lowercase and strip, remove
parenthesized qualifiers, collapse whitespace, strip again. -/
def cleanLabel (label : String) : String :=
  let s1 := pyStrip (pyLower label.data)
  let s2 := stripParensGo s1.length s1
  let s3 := pyStrip (collapseWsGo s2.length s2)
  ⟨s3⟩

/-- `_fuzzy_match`: first canonical label one of whose variants contains or
is contained in the (lowercased) label. -/
def fuzzyMatch (label : String) : Option String :=
  let ll : String := ⟨pyLower label.data⟩
  (STANDARD_LABELS.find? (fun p =>
    p.2.any (fun v => strContains ll v || strContains v ll))).map (·.1)

/-- `standardize_label`: clean, exact reverse lookup, fuzzy match, else the
original label unchanged. -/
def standardizeLabel (label : String) : String :=
  match revLookup (cleanLabel label) with
  | some std => std
  | none =>
    match fuzzyMatch (cleanLabel label) with
    | some std => std
    | none => label

/-- Every value stored in the reverse map is a canonical key. -/
lemma revLookup_mem_stdKeys {k v : String} (h : revLookup k = some v) :
    v ∈ stdKeys := by
  unfold revLookup at h
  rcases Option.map_eq_some'.mp h with ⟨pr, hfind, hv⟩
  have hmem : pr ∈ reversePairs.reverse := List.mem_of_find?_eq_some hfind
  have hmem2 : pr ∈ reversePairs := List.mem_reverse.mp hmem
  have hall : ∀ p ∈ reversePairs, p.2 ∈ stdKeys := by decide
  rw [← hv]; exact hall pr hmem2

/-- Every fuzzy-match result is a canonical key. -/
lemma fuzzyMatch_mem_stdKeys {l v : String} (h : fuzzyMatch l = some v) :
    v ∈ stdKeys := by
  unfold fuzzyMatch at h
  rcases Option.map_eq_some'.mp h with ⟨pr, hfind, hv⟩
  have hmem : pr ∈ STANDARD_LABELS := List.mem_of_find?_eq_some hfind
  rw [← hv]
  exact List.mem_map_of_mem (·.1) hmem

/-- `standardize_label` either returns its input unchanged or returns one of
the canonical keys. -/
lemma standardizeLabel_cases (s : String) :
    standardizeLabel s = s ∨ standardizeLabel s ∈ stdKeys := by
  cases h1 : revLookup (cleanLabel s) with
  | some std =>
    right
    have := revLookup_mem_stdKeys h1
    simpa [standardizeLabel, h1]
  | none =>
    cases h2 : fuzzyMatch (cleanLabel s) with
    | some std =>
      right
      have := fuzzyMatch_mem_stdKeys h2
      simpa [standardizeLabel, h1, h2]
    | none =>
      left
      simp [standardizeLabel, h1, h2]

/-- C4 (counterexample): label standardization is not idempotent.
`standardize_label "Current Assets"` returns the canonical key
`"current_assets"` via the exact reverse index, but a second application
fuzzy-matches the variant `"assets"` of `total_assets` (which precedes
`current_assets` in the table) inside `"current_assets"` and returns
`"total_assets"`. -/
theorem claim4_label_idempotence_cex :
    standardizeLabel "Current Assets" = "current_assets" ∧
    standardizeLabel "current_assets" = "total_assets" ∧
    standardizeLabel (standardizeLabel "Current Assets") ≠
      standardizeLabel "Current Assets" := by
  refine ⟨by decide, by decide, ?_⟩
  decide

/-- C4 (amended): `standardize_label` is idempotent on every input whose
standardization is not one of the four canonical keys `current_assets`,
`non_current_assets`, `current_liabilities`, `non_current_liabilities`
(whose names strictly contain another label's variant, so a second
application fuzzy-matches `total_assets` / `total_liabilities`). -/
theorem claim4_label_idempotence_amended (s : String)
    (h1 : standardizeLabel s ≠ "current_assets")
    (h2 : standardizeLabel s ≠ "non_current_assets")
    (h3 : standardizeLabel s ≠ "current_liabilities")
    (h4 : standardizeLabel s ≠ "non_current_liabilities") :
    standardizeLabel (standardizeLabel s) = standardizeLabel s := by
  rcases standardizeLabel_cases s with h | h
  · rw [h]; exact h
  · simp only [stdKeys, STANDARD_LABELS, List.map_cons, List.map_nil,
      List.mem_cons, List.not_mem_nil, or_false] at h
    rcases h with h|h|h|h|h|h|h|h|h|h|h|h|h|h|h|h|h
    all_goals first
      | (exact absurd h h1)
      | (exact absurd h h2)
      | (exact absurd h h3)
      | (exact absurd h h4)
      | (rw [h]; decide)

/-- C4 (witness): a concrete instance of the amended idempotence theorem at
the input `"Total Revenue"` (which standardizes to `"revenue"`). -/
theorem claim4_label_idempotence_witness :
    standardizeLabel (standardizeLabel "Total Revenue") =
      standardizeLabel "Total Revenue" :=
  claim4_label_idempotence_amended "Total Revenue"
    (by decide) (by decide) (by decide) (by decide)

/-! ## Period parser (`src/utils/periods.py`, class `PeriodParser`)

Each regex in `FY_PATTERNS` / `QUARTER_PATTERNS` / `HALF_YEAR_PATTERNS` is
hand-compiled into a matcher on `List Char`.  All these searches run under
`re.IGNORECASE`, which is modelled by lowercasing the input once (the
captured groups are digits or month names, and month names are lowercased
again by the Python code before use, so this is faithful).  `re.search`
semantics (leftmost match, with the backtracking the concrete patterns can
actually perform) are reproduced; each matcher documents the regex it
implements. -/

/-- Match a literal string at the head of the input; return the rest. -/
def lit : List Char → List Char → Option (List Char)
  | cs, [] => some cs
  | [], _ :: _ => none
  | c :: cs, p :: ps => if c == p then lit cs ps else none

/-- `\s+`: at least one whitespace character (then greedily all of them;
every use is followed by a non-whitespace requirement, so greediness is
deterministic here). -/
def ws1 : List Char → Option (List Char)
  | [] => none
  | c :: cs => if pyIsSpace c then some (dropWsLeft cs) else none

/-- Exactly `n` digit characters, accumulated into a number (`\d{n}`;
further digits may follow, as after a `\d{4}` group in `re`). -/
def readDigitsExactGo : Nat → Nat → List Char → Option (Nat × List Char)
  | 0, acc, cs => some (acc, cs)
  | _ + 1, _, [] => none
  | n + 1, acc, c :: cs =>
    if isDig c then readDigitsExactGo n (10 * acc + digitVal c) cs else none

/-- `\d{n}` (see `readDigitsExactGo`). -/
def readDigitsExact (n : Nat) (cs : List Char) : Option (Nat × List Char) :=
  readDigitsExactGo n 0 cs

/-- Maximal run of digit characters. -/
def readDigitRun : List Char → (List Nat × List Char)
  | [] => ([], [])
  | c :: cs =>
    if isDig c then
      let (ds, r) := readDigitRun cs
      (digitVal c :: ds, r)
    else ([], c :: cs)

/-- Up to `n` digit characters, greedily. -/
def readDigitsUpTo : Nat → List Char → (List Nat × List Char)
  | 0, cs => ([], cs)
  | _ + 1, [] => ([], [])
  | n + 1, c :: cs =>
    if isDig c then
      let (ds, r) := readDigitsUpTo n cs
      (digitVal c :: ds, r)
    else ([], c :: cs)

/-- `(\d{1,2})` followed by `\s+` in the source regexes: a maximal digit run
of length 1 or 2 (a third digit would make the mandatory whitespace fail in
every backtracking alternative, so the run being at most 2 is exact). -/
def readDay (cs : List Char) : Option (Nat × List Char) :=
  let (ds, r) := readDigitRun cs
  if ds.length == 1 || ds.length == 2 then some (digitsVal ds, r) else none

/-- Maximal run of `[A-Za-z]` characters. -/
def readAlphaRun : List Char → (List Char × List Char)
  | [] => ([], [])
  | c :: cs =>
    if isAsciiAlpha c then
      let (al, r) := readAlphaRun cs
      (c :: al, r)
    else ([], c :: cs)

/-- `MONTH_MAP.get(month_str[:3])`: look up the first three characters of
the (lowercased) month group. -/
def month3 (m : List Char) : Option Nat :=
  let k := m.take 3
  if k == "jan".data then some 1
  else if k == "feb".data then some 2
  else if k == "mar".data then some 3
  else if k == "apr".data then some 4
  else if k == "may".data then some 5
  else if k == "jun".data then some 6
  else if k == "jul".data then some 7
  else if k == "aug".data then some 8
  else if k == "sep".data then some 9
  else if k == "oct".data then some 10
  else if k == "nov".data then some 11
  else if k == "dec".data then some 12
  else none

/-- The tail `(\d{1,2})\s+([A-Za-z]+)\s+(\d{4})` shared by several
patterns, starting at the day digits; returns the day, the raw month
characters and the year. -/
def dmyAt (cs : List Char) : Option (Nat × List Char × Nat) := do
  let (d, r1) ← readDay cs
  let r2 ← ws1 r1
  let (al, r3) := readAlphaRun r2
  if al.isEmpty then none else
  let r4 ← ws1 r3
  let (y, _) ← readDigitsExact 4 r4
  some (d, al, y)

/-- `re.search`: try the position matcher at every suffix, leftmost first. -/
def searchSfx (f : List Char → Option α) : List Char → Option α
  | [] => f []
  | c :: cs =>
    match f (c :: cs) with
    | some r => some r
    | none => searchSfx f cs

/-- The continuation `\s*[:\-]?\s*(\d{4})` of FY pattern 1 (the optional
separator is deterministic because neither `:` nor `-` is a digit or
whitespace). -/
def fy1Cont (r : List Char) : Option Nat :=
  let r1 := dropWsLeft r
  let r2 := match r1 with
    | c :: t => if c == ':' || c == '-' then dropWsLeft t else c :: t
    | [] => r1
  (readDigitsExact 4 r2).map (·.1)

/-- FY pattern 1 `(?:FY|Fiscal\s+Year)\s*[:\-]?\s*(\d{4})` at one
position. -/
def fy1At (cs : List Char) : Option Nat :=
  match (lit cs ['f', 'y']).bind fy1Cont with
  | some y => some y
  | none =>
    (lit cs "fiscal".data).bind fun r =>
      (ws1 r).bind fun r2 => (lit r2 "year".data).bind fy1Cont

/-- Consume an optional final `d` (the `ended?` in the source regexes; the
following mandatory whitespace makes taking it deterministic). -/
def optD : List Char → List Char
  | 'd' :: t => t
  | cs => cs

/-- FY pattern 2 `(?:Year\s+ended?|YE)\s+(\d{1,2})\s+([A-Za-z]+)\s+(\d{4})`
at one position. -/
def fy2At (cs : List Char) : Option (Nat × List Char × Nat) :=
  let cont : List Char → Option (Nat × List Char × Nat) := fun r =>
    (ws1 r).bind dmyAt
  let a1 := (lit cs "year".data).bind fun r =>
    (ws1 r).bind fun r2 =>
      (lit r2 "ende".data).bind fun r3 => cont (optD r3)
  match a1 with
  | some g => some g
  | none => (lit cs ['y', 'e']).bind cont

/-- FY pattern 3 `(\d{1,2})\s+([A-Za-z]+)\s+(\d{4})` at one position. -/
def fy3At (cs : List Char) : Option (Nat × List Char × Nat) :=
  dmyAt cs

/-- FY pattern 4 (the `2023-24` / `2023/2024` year-range regex: group
`(\d{4})`, then `\s*`, a dash or slash character class, `\s*`, then group
`(\d{2,4})`) at one position; returns the first year and the second group
as (digit count, value). -/
def fy4At (cs : List Char) : Option (Nat × Nat × Nat) := do
  let (y1, r1) ← readDigitsExact 4 cs
  match dropWsLeft r1 with
  | c :: t =>
    if c == '-' || c == '/' then
      let r2 := dropWsLeft t
      let (ds, _) := readDigitsUpTo 4 r2
      if ds.length ≥ 2 then some (y1, ds.length, digitsVal ds) else none
    else none
  | [] => none

/-- FY pattern 5
`For\s+the\s+year\s+ended?\s+(\d{1,2})\s+([A-Za-z]+)\s+(\d{4})` at one
position. -/
def fy5At (cs : List Char) : Option (Nat × List Char × Nat) :=
  (lit cs "for".data).bind fun r1 =>
    (ws1 r1).bind fun r2 =>
      (lit r2 "the".data).bind fun r3 =>
        (ws1 r3).bind fun r4 =>
          (lit r4 "year".data).bind fun r5 =>
            (ws1 r5).bind fun r6 =>
              (lit r6 "ende".data).bind fun r7 =>
                (ws1 (optD r7)).bind dmyAt

/-- Quarter pattern 1 `(?:Q|Quarter)\s*(\d)\s*(?:FY)?(\d{4})` at one
position (also used for half pattern 1 with other literals). -/
def qNumAt (lit1 lit2 : List Char) (cs : List Char) : Option (Nat × Nat) :=
  let cont : List Char → Option (Nat × Nat) := fun r =>
    match dropWsLeft r with
    | c :: t =>
      if isDig c then
        let r2 := dropWsLeft t
        let r3 := match lit r2 ['f', 'y'] with
          | some t2 => t2
          | none => r2
        ((readDigitsExact 4 r3).map fun p => (digitVal c, p.1))
      else none
    | [] => none
  match (lit cs lit1).bind cont with
  | some g => some g
  | none => (lit cs lit2).bind cont

/-- Quarter pattern 2 `(\d)(?:st|nd|rd|th)\s+Quarter\s+(\d{4})` at one
position. -/
def q2At (cs : List Char) : Option (Nat × Nat) :=
  match cs with
  | c :: t =>
    if isDig c then
      let suff := fun (s : List Char) => (lit t s)
      let afterSuffix :=
        match suff ['s', 't'] with
        | some r => some r
        | none => match suff ['n', 'd'] with
          | some r => some r
          | none => match suff ['r', 'd'] with
            | some r => some r
            | none => suff ['t', 'h']
      afterSuffix.bind fun r =>
        (ws1 r).bind fun r2 =>
          (lit r2 "quarter".data).bind fun r3 =>
            (ws1 r3).bind fun r4 =>
              (readDigitsExact 4 r4).map fun p => (digitVal c, p.1)
    else none
  | [] => none

/-- Quarter pattern 3
`Three\s+months\s+ended?\s+(\d{1,2})\s+([A-Za-z]+)\s+(\d{4})` (and half
pattern 2 with `Six`) at one position. -/
def monthsEndedAt (word : List Char) (cs : List Char) :
    Option (Nat × List Char × Nat) :=
  (lit cs word).bind fun r1 =>
    (ws1 r1).bind fun r2 =>
      (lit r2 "months".data).bind fun r3 =>
        (ws1 r3).bind fun r4 =>
          (lit r4 "ende".data).bind fun r5 =>
            (ws1 (optD r5)).bind dmyAt

/-- The dictionary returned by `parse_period_label`: `quarter` is present
only for quarters, `half` only for half-years. -/
structure PeriodInfo where
  period_type : String
  start_date : PyDate
  end_date : PyDate
  fiscal_year : Nat
  quarter : Option Nat
  half : Option Nat
  original_label : String
  deriving DecidableEq, Repr

/-- The `Year ended 31 Dec 2023`-shaped branch of `_parse_fiscal_year`:
`none` means the month was not recognized and the loop continues with the
next pattern; otherwise the `date` constructions may raise. -/
def fyResultDMY (d : Nat) (mon : List Char) (y : Nat) (orig : String) :
    Option (Except PyErr PeriodInfo) :=
  match month3 mon with
  | none => none
  | some m =>
    some (do
      let e ← mkDate y m d
      let s ← mkDate ((y : Int) - 1) m (if d < 28 then d + 1 else 1)
      pure ⟨"fiscal_year", s, e, y, none, none, orig⟩)

/-- `_parse_fiscal_year`: try the five `FY_PATTERNS` in order. -/
def parseFiscalYear (lower : List Char) (orig : String) :
    Except PyErr (Option PeriodInfo) :=
  match searchSfx fy1At lower with
  | some y => do
    let e ← mkDate y 12 31
    let s ← mkDate ((y : Int) - 1) 1 1
    pure (some ⟨"fiscal_year", s, e, y, none, none, orig⟩)
  | none =>
  match (searchSfx fy2At lower).bind
      (fun g => fyResultDMY g.1 g.2.1 g.2.2 orig) with
  | some r => r.map some
  | none =>
  match (searchSfx fy3At lower).bind
      (fun g => fyResultDMY g.1 g.2.1 g.2.2 orig) with
  | some r => r.map some
  | none =>
  match searchSfx fy4At lower with
  | some (y1, len2, val2) =>
    -- `int(str(year1)[:2] + year2_str)` when the short year has 2 digits
    let y2 := if len2 == 2
      then digitsVal ((natDigits y1).take 2) * 100 + val2
      else val2
    do
      let e ← mkDate y2 12 31
      let s ← mkDate y1 1 1
      pure (some ⟨"fiscal_year", s, e, y2, none, none, orig⟩)
  | none =>
  match (searchSfx fy5At lower).bind
      (fun g => fyResultDMY g.1 g.2.1 g.2.2 orig) with
  | some r => r.map some
  | none => pure none

/-- The `Q1 FY2023`-shaped branch of `_parse_quarter`:
`quarter_starts[quarter]` raises `KeyError` when the digit is not 1-4. -/
def quarterFromQY (q fy : Nat) (orig : String) : Except PyErr PeriodInfo := do
  let bounds ←
    if q == 1 then .ok ((1, 1), (3, 31))
    else if q == 2 then .ok ((4, 1), (6, 30))
    else if q == 3 then .ok ((7, 1), (9, 30))
    else if q == 4 then .ok ((10, 1), (12, 31))
    else .error PyErr.keyError
  let s ← mkDate fy bounds.1.1 bounds.1.2
  let e ← mkDate fy bounds.2.1 bounds.2.2
  pure ⟨"quarter", s, e, fy, some q, none, orig⟩

/-- `_parse_quarter`: try the three `QUARTER_PATTERNS` in order. -/
def parseQuarter (lower : List Char) (orig : String) :
    Except PyErr (Option PeriodInfo) :=
  match searchSfx (qNumAt ['q'] "quarter".data) lower with
  | some (q, fy) => (quarterFromQY q fy orig).map some
  | none =>
  match searchSfx q2At lower with
  | some (q, fy) => (quarterFromQY q fy orig).map some
  | none =>
  match searchSfx (monthsEndedAt "three".data) lower with
  | some (d, mon, y) =>
    match month3 mon with
    | none => pure none
    | some m => do
      let e ← mkDate y m d
      let sm := if m > 3 then m - 3 else m + 9
      let sy : Int := if m > 3 then (y : Int) else (y : Int) - 1
      let s ← mkDate sy sm d
      pure (some ⟨"quarter", s, e, y, some ((m - 1) / 3 + 1), none, orig⟩)
  | none => pure none

/-- `_parse_half_year`: try the two `HALF_YEAR_PATTERNS` in order.  In the
`H1 FY2023` branch any digit other than 1 falls into the `else` arm, which
builds second-half dates. -/
def parseHalfYear (lower : List Char) (orig : String) :
    Except PyErr (Option PeriodInfo) :=
  match searchSfx (qNumAt ['h'] "half".data) lower with
  | some (h, fy) =>
    if h == 1 then do
      let s ← mkDate fy 1 1
      let e ← mkDate fy 6 30
      pure (some ⟨"half_year", s, e, fy, none, some h, orig⟩)
    else do
      let s ← mkDate fy 7 1
      let e ← mkDate fy 12 31
      pure (some ⟨"half_year", s, e, fy, none, some h, orig⟩)
  | none =>
  match searchSfx (monthsEndedAt "six".data) lower with
  | some (d, mon, y) =>
    match month3 mon with
    | none => pure none
    | some m => do
      let e ← mkDate y m d
      let sm := if m > 6 then m - 6 else m + 6
      let sy : Int := if m > 6 then (y : Int) else (y : Int) - 1
      let s ← mkDate sy sm d
      pure (some ⟨"half_year", s, e, y, none, some (if m ≤ 6 then 1 else 2), orig⟩)
  | none => pure none

/-- `parse_period_label`: strip the label (`label_clean`), then try
fiscal-year, quarter and half-year patterns in that order; `.ok none`
models `return None`.  The matchers receive the lowercased characters (the
`re.IGNORECASE` flag) and the helpers receive the stripped label, which
they store as `original_label`. -/
def parsePeriodLabel (label : String) : Except PyErr (Option PeriodInfo) := do
  match ← parseFiscalYear (pyLower (pyStrip label.data)) ⟨pyStrip label.data⟩ with
  | some r => pure (some r)
  | none =>
    match ← parseQuarter (pyLower (pyStrip label.data)) ⟨pyStrip label.data⟩ with
    | some r => pure (some r)
    | none =>
      match ← parseHalfYear (pyLower (pyStrip label.data)) ⟨pyStrip label.data⟩ with
      | some r => pure (some r)
      | none => pure none

/-- `normalize_period_label`: `FY{y}`, `Q{q}-{y}`, `H{h}-{y}`, or the label
unchanged when parsing fails.  (`parsed["quarter"]` / `parsed["half"]` are
always present for the corresponding period types; `getD 0` is the
dictionary access.) -/
def normalizePeriodLabel (label : String) : Except PyErr String := do
  match ← parsePeriodLabel label with
  | none => pure label
  | some p =>
    if p.period_type == "fiscal_year" then
      pure ("FY" ++ pyStrNat p.fiscal_year)
    else if p.period_type == "quarter" then
      pure ("Q" ++ pyStrNat (p.quarter.getD 0) ++ "-" ++ pyStrNat p.fiscal_year)
    else if p.period_type == "half_year" then
      pure ("H" ++ pyStrNat (p.half.getD 0) ++ "-" ++ pyStrNat p.fiscal_year)
    else pure label

/-! ### Facts about digit characters and `pyStrNat` -/

lemma isDig_digitToChar {d : Nat} (h : d ≤ 9) : isDig (digitToChar d) = true := by
  interval_cases d <;> decide

lemma digitVal_digitToChar {d : Nat} (h : d ≤ 9) : digitVal (digitToChar d) = d := by
  interval_cases d <;> decide

lemma not_space_digitToChar {d : Nat} (h : d ≤ 9) :
    pyIsSpace (digitToChar d) = false := by
  interval_cases d <;> decide

lemma lower_digitToChar {d : Nat} (h : d ≤ 9) :
    pyLowerChar (digitToChar d) = digitToChar d := by
  interval_cases d <;> decide

lemma digitToChar_ne_colon {d : Nat} (h : d ≤ 9) :
    (digitToChar d == ':') = false := by
  interval_cases d <;> decide

lemma digitToChar_ne_dash {d : Nat} (h : d ≤ 9) :
    (digitToChar d == '-') = false := by
  interval_cases d <;> decide

/-- The fuel argument of `natDigitsGo` is irrelevant once it is large
enough (one unfolding per digit). -/
lemma natDigitsGo_irrel : ∀ (f g n : Nat),
    n < 10 ^ (f + 1) → n < 10 ^ (g + 1) → natDigitsGo f n = natDigitsGo g n := by
  intro f
  induction f with
  | zero =>
    intro g n hf _
    have h10 : n < 10 := by simpa using hf
    cases g with
    | zero => rfl
    | succ g => simp [natDigitsGo, h10, Nat.mod_eq_of_lt h10]
  | succ f ih =>
    intro g n hf hg
    by_cases h10 : n < 10
    · cases g with
      | zero => simp [natDigitsGo, h10, Nat.mod_eq_of_lt h10]
      | succ g => simp [natDigitsGo, h10]
    · cases g with
      | zero =>
        exact absurd (by simpa using hg) h10
      | succ g =>
        have hdf : n / 10 < 10 ^ (f + 1) := by
          rw [Nat.div_lt_iff_lt_mul (by norm_num)]
          calc n < 10 ^ (f + 1 + 1) := hf
          _ = 10 ^ (f + 1) * 10 := by ring
        have hdg : n / 10 < 10 ^ (g + 1) := by
          rw [Nat.div_lt_iff_lt_mul (by norm_num)]
          calc n < 10 ^ (g + 1 + 1) := hg
          _ = 10 ^ (g + 1) * 10 := by ring
        simp only [natDigitsGo, h10, if_false]
        rw [ih g (n / 10) hdf hdg]

lemma natDigitsGo_succ (f n : Nat) :
    natDigitsGo (f + 1) n =
      if n < 10 then [n] else natDigitsGo f (n / 10) ++ [n % 10] := rfl

lemma natDigitsGo_zero (n : Nat) : natDigitsGo 0 n = [n % 10] := rfl

/-- Digits of a four-digit number. -/
lemma natDigits_four {y : Nat} (h1 : 1000 ≤ y) (h2 : y ≤ 9999) :
    natDigits y = [y / 1000, y / 100 % 10, y / 10 % 10, y % 10] := by
  have hfuel : y < 10 ^ (y + 1) := by
    calc y < 10 ^ y := Nat.lt_pow_self (by norm_num) y
    _ ≤ 10 ^ (y + 1) := Nat.pow_le_pow_right (by norm_num) (by omega)
  have h4 : y < 10 ^ (3 + 1) := by norm_num; omega
  rw [natDigits, natDigitsGo_irrel y 3 y hfuel h4]
  rw [show (3 : Nat) = 2 + 1 from rfl, natDigitsGo_succ, if_neg (by omega)]
  rw [show (2 : Nat) = 1 + 1 from rfl, natDigitsGo_succ, if_neg (by omega)]
  rw [show (1 : Nat) = 0 + 1 from rfl, natDigitsGo_succ, if_neg (by omega)]
  rw [natDigitsGo_zero]
  rw [Nat.div_div_eq_div_mul, Nat.div_div_eq_div_mul, Nat.div_div_eq_div_mul]
  norm_num
  omega

/-! ### Re-parsing a normalized fiscal-year label -/

lemma dropWsLeft_cons_false {c : Char} {cs : List Char}
    (h : pyIsSpace c = false) : dropWsLeft (c :: cs) = c :: cs := by
  simp [dropWsLeft, h]

lemma readDigitsExactGo_cons (n acc : Nat) (c : Char) (cs : List Char) :
    readDigitsExactGo (n + 1) acc (c :: cs) =
      if isDig c then readDigitsExactGo n (10 * acc + digitVal c) cs
      else none := rfl

lemma readDigitsExactGo_zero (acc : Nat) (cs : List Char) :
    readDigitsExactGo 0 acc cs = some (acc, cs) := rfl

/-- Reading exactly four digit characters. -/
lemma readDigitsExact_four {a b c d : Nat}
    (ha : a ≤ 9) (hb : b ≤ 9) (hc : c ≤ 9) (hd : d ≤ 9) :
    readDigitsExact 4 [digitToChar a, digitToChar b, digitToChar c, digitToChar d] =
      some (1000 * a + 100 * b + 10 * c + d, []) := by
  rw [readDigitsExact]
  rw [show (4 : Nat) = 3 + 1 from rfl, readDigitsExactGo_cons,
    isDig_digitToChar ha, if_pos rfl, digitVal_digitToChar ha]
  rw [show (3 : Nat) = 2 + 1 from rfl, readDigitsExactGo_cons,
    isDig_digitToChar hb, if_pos rfl, digitVal_digitToChar hb]
  rw [show (2 : Nat) = 1 + 1 from rfl, readDigitsExactGo_cons,
    isDig_digitToChar hc, if_pos rfl, digitVal_digitToChar hc]
  rw [show (1 : Nat) = 0 + 1 from rfl, readDigitsExactGo_cons,
    isDig_digitToChar hd, if_pos rfl, digitVal_digitToChar hd]
  rw [readDigitsExactGo_zero]
  ring_nf

/-- `fy1Cont` on exactly the four digit characters of a year. -/
lemma fy1Cont_digits {a b c d : Nat}
    (ha : a ≤ 9) (hb : b ≤ 9) (hc : c ≤ 9) (hd : d ≤ 9) :
    fy1Cont [digitToChar a, digitToChar b, digitToChar c, digitToChar d] =
      some (1000 * a + 100 * b + 10 * c + d) := by
  rw [fy1Cont]
  simp only [dropWsLeft_cons_false (not_space_digitToChar ha),
    digitToChar_ne_colon ha, digitToChar_ne_dash ha, Bool.or_self,
    Bool.false_or, Bool.false_eq_true, if_false,
    readDigitsExact_four ha hb hc hd, Option.map_some']

lemma searchSfx_cons_some {f : List Char → Option α} {c : Char}
    {cs : List Char} {r : α} (h : f (c :: cs) = some r) :
    searchSfx f (c :: cs) = some r := by
  simp [searchSfx, h]

lemma fy1At_digits {a b c d : Nat}
    (ha : a ≤ 9) (hb : b ≤ 9) (hc : c ≤ 9) (hd : d ≤ 9) :
    fy1At ('f' :: 'y' ::
        [digitToChar a, digitToChar b, digitToChar c, digitToChar d]) =
      some (1000 * a + 100 * b + 10 * c + d) := by
  have hlit : lit ('f' :: 'y' ::
      [digitToChar a, digitToChar b, digitToChar c, digitToChar d]) ['f', 'y'] =
      some [digitToChar a, digitToChar b, digitToChar c, digitToChar d] := rfl
  rw [fy1At, hlit]
  simp only [Option.some_bind, fy1Cont_digits ha hb hc hd]

lemma ebind_ok (a : α) (f : α → Except ε β) :
    (Except.ok a : Except ε α) >>= f = f a := rfl

lemma mkDate_ok {y : Int} {m d : Nat} (h1 : 1 ≤ y) (h2 : y ≤ 9999)
    (h3 : 1 ≤ m) (h4 : m ≤ 12) (h5 : 1 ≤ d)
    (h6 : d ≤ daysInMonth y.toNat m) :
    mkDate y m d = .ok ⟨y.toNat, m, d⟩ := by
  rw [mkDate, if_pos ⟨h1, h2, h3, h4, h5, h6⟩]

/-- `_parse_fiscal_year` on the lowercased character list of `FY{yyyy}`. -/
lemma parseFiscalYear_digits {a b c d : Nat}
    (ha : a ≤ 9) (hb : b ≤ 9) (hc : c ≤ 9) (hd : d ≤ 9) (h1 : 1 ≤ a)
    (orig : String) :
    parseFiscalYear ('f' :: 'y' ::
        [digitToChar a, digitToChar b, digitToChar c, digitToChar d]) orig =
      .ok (some ⟨"fiscal_year", ⟨1000 * a + 100 * b + 10 * c + d - 1, 1, 1⟩,
        ⟨1000 * a + 100 * b + 10 * c + d, 12, 31⟩,
        1000 * a + 100 * b + 10 * c + d, none, none, orig⟩) := by
  have hdim12 : ∀ x : Nat, daysInMonth x 12 = 31 := fun _ => rfl
  have he : mkDate (1000 * a + 100 * b + 10 * c + d : Nat) 12 31 =
      .ok ⟨1000 * a + 100 * b + 10 * c + d, 12, 31⟩ := by
    rw [mkDate_ok (by omega) (by omega) (by omega) (by omega) (by omega)
      (by rw [hdim12])]
    rw [show ((1000 * a + 100 * b + 10 * c + d : Nat) : Int).toNat =
      1000 * a + 100 * b + 10 * c + d by omega]
  have hs : mkDate (((1000 * a + 100 * b + 10 * c + d : Nat) : Int) - 1) 1 1 =
      .ok ⟨1000 * a + 100 * b + 10 * c + d - 1, 1, 1⟩ := by
    have hdim1 : ∀ x : Nat, daysInMonth x 1 = 31 := fun _ => rfl
    rw [mkDate_ok (by omega) (by omega) (by omega) (by omega) (by omega)
      (by rw [hdim1]; omega)]
    rw [show (((1000 * a + 100 * b + 10 * c + d : Nat) : Int) - 1).toNat =
      1000 * a + 100 * b + 10 * c + d - 1 by omega]
  rw [parseFiscalYear, searchSfx_cons_some (fy1At_digits ha hb hc hd)]
  dsimp only
  rw [he, ebind_ok, hs, ebind_ok]
  rfl

lemma dropWsLeft_of_all {l : List Char}
    (h : ∀ c ∈ l, pyIsSpace c = false) : dropWsLeft l = l := by
  cases l with
  | nil => rfl
  | cons c cs => exact dropWsLeft_cons_false (h c (by simp))

lemma pyStrip_of_all {l : List Char}
    (h : ∀ c ∈ l, pyIsSpace c = false) : pyStrip l = l := by
  rw [pyStrip,
    dropWsLeft_of_all (fun c hc => h c (List.mem_reverse.mp hc)),
    List.reverse_reverse, dropWsLeft_of_all h]

/-- Round trip for a normalized fiscal-year label: `FY{yyyy}` parses back
to the same four-digit fiscal year via FY pattern 1. -/
lemma parse_FY_pyStrNat {y : Nat} (h1 : 1000 ≤ y) (h2 : y ≤ 9999) :
    parsePeriodLabel ("FY" ++ pyStrNat y) =
      .ok (some ⟨"fiscal_year", ⟨y - 1, 1, 1⟩, ⟨y, 12, 31⟩, y, none, none,
        "FY" ++ pyStrNat y⟩) := by
  have ha : y / 1000 ≤ 9 := by omega
  have hb : y / 100 % 10 ≤ 9 := by omega
  have hc : y / 10 % 10 ≤ 9 := by omega
  have hd : y % 10 ≤ 9 := by omega
  have h1a : 1 ≤ y / 1000 := by omega
  have hy : 1000 * (y / 1000) + 100 * (y / 100 % 10) + 10 * (y / 10 % 10) +
      y % 10 = y := by omega
  have hdata : ("FY" ++ pyStrNat y).data =
      'F' :: 'Y' :: [digitToChar (y / 1000), digitToChar (y / 100 % 10),
        digitToChar (y / 10 % 10), digitToChar (y % 10)] := by
    rw [pyStrNat, natDigits_four h1 h2]; rfl
  have hstrip : pyStrip ('F' :: 'Y' :: [digitToChar (y / 1000),
      digitToChar (y / 100 % 10), digitToChar (y / 10 % 10),
      digitToChar (y % 10)]) =
      'F' :: 'Y' :: [digitToChar (y / 1000), digitToChar (y / 100 % 10),
        digitToChar (y / 10 % 10), digitToChar (y % 10)] := by
    apply pyStrip_of_all
    intro c hcm
    simp only [List.mem_cons, List.not_mem_nil, or_false] at hcm
    rcases hcm with rfl | rfl | rfl | rfl | rfl | rfl
    · rfl
    · rfl
    · exact not_space_digitToChar ha
    · exact not_space_digitToChar hb
    · exact not_space_digitToChar hc
    · exact not_space_digitToChar hd
  have hF : pyLowerChar 'F' = 'f' := rfl
  have hY : pyLowerChar 'Y' = 'y' := rfl
  have hlower : pyLower ('F' :: 'Y' :: [digitToChar (y / 1000),
      digitToChar (y / 100 % 10), digitToChar (y / 10 % 10),
      digitToChar (y % 10)]) =
      'f' :: 'y' :: [digitToChar (y / 1000), digitToChar (y / 100 % 10),
        digitToChar (y / 10 % 10), digitToChar (y % 10)] := by
    simp only [pyLower, List.map_cons, List.map_nil, hF, hY,
      lower_digitToChar ha, lower_digitToChar hb, lower_digitToChar hc,
      lower_digitToChar hd]
  have horig : (⟨'F' :: 'Y' :: [digitToChar (y / 1000),
      digitToChar (y / 100 % 10), digitToChar (y / 10 % 10),
      digitToChar (y % 10)]⟩ : String) = "FY" ++ pyStrNat y := by
    rw [← hdata]
  rw [parsePeriodLabel, hdata, hstrip, hlower, horig,
    parseFiscalYear_digits ha hb hc hd h1a, hy, ebind_ok]
  rfl

/-- Auxiliary: a two-step `Except` bind ending in `pure (f x1 x2)`. -/
lemma bind2_pure_eq {α : Type} {d1 d2 : Except PyErr PyDate}
    {f : PyDate → PyDate → α} {r : α}
    (h : (do
        let x1 ← d1
        let x2 ← d2
        pure (f x1 x2) : Except PyErr α) = .ok r) :
    ∃ x1 x2, f x1 x2 = r := by
  cases d1 with
  | error e => simp [Bind.bind, Except.bind] at h
  | ok x1 =>
    cases d2 with
    | error e => simp [Bind.bind, Except.bind] at h
    | ok x2 =>
      simp only [Bind.bind, Except.bind, pure, Except.pure,
        Except.ok.injEq] at h
      exact ⟨x1, x2, h⟩

lemma map_some_ok {rx : Except PyErr PeriodInfo} {r : PeriodInfo}
    (h : rx.map some = .ok (some r)) : rx = .ok r := by
  cases rx with
  | error e => simp [Except.map] at h
  | ok p => simp only [Except.map, Except.ok.injEq, Option.some.injEq] at h; rw [h]

/-- Results produced through `fyResultDMY` are fiscal years. -/
lemma fyResultDMY_type {d : Nat} {mon : List Char} {y : Nat} {orig : String}
    {r : PeriodInfo}
    (h : fyResultDMY d mon y orig = some (.ok r)) :
    r.period_type = "fiscal_year" := by
  unfold fyResultDMY at h
  split at h
  · exact Option.noConfusion h
  · injection h with h
    obtain ⟨x1, x2, hf⟩ := bind2_pure_eq h
    rw [← hf]

/-- The combined option step used for FY patterns 2, 3 and 5. -/
lemma fyPat_bind_type {g : Option (Nat × List Char × Nat)} {orig : String}
    {r : PeriodInfo}
    (h : g.bind (fun t => fyResultDMY t.1 t.2.1 t.2.2 orig) = some (.ok r)) :
    r.period_type = "fiscal_year" := by
  cases g with
  | none => exact Option.noConfusion h
  | some t => exact fyResultDMY_type h

/-- Every successful `_parse_fiscal_year` result is a fiscal year. -/
lemma parseFiscalYear_type {lower : List Char} {orig : String}
    {r : PeriodInfo} (h : parseFiscalYear lower orig = .ok (some r)) :
    r.period_type = "fiscal_year" := by
  unfold parseFiscalYear at h
  cases hs1 : searchSfx fy1At lower with
  | some y =>
    simp only [hs1] at h
    obtain ⟨x1, x2, hf⟩ := bind2_pure_eq h
    injection hf with hf
    rw [← hf]
  | none =>
    simp only [hs1] at h
    cases hs2 : (searchSfx fy2At lower).bind
        (fun g => fyResultDMY g.1 g.2.1 g.2.2 orig) with
    | some rx =>
      simp only [hs2] at h
      have hx := map_some_ok h
      subst hx
      exact fyPat_bind_type hs2
    | none =>
      simp only [hs2] at h
      cases hs3 : (searchSfx fy3At lower).bind
          (fun g => fyResultDMY g.1 g.2.1 g.2.2 orig) with
      | some rx =>
        simp only [hs3] at h
        have hx := map_some_ok h
        subst hx
        exact fyPat_bind_type hs3
      | none =>
        simp only [hs3] at h
        cases hs4 : searchSfx fy4At lower with
        | some g3 =>
          obtain ⟨y1, len2, val2⟩ := g3
          simp only [hs4] at h
          obtain ⟨x1, x2, hf⟩ := bind2_pure_eq h
          injection hf with hf
          rw [← hf]
        | none =>
          simp only [hs4] at h
          cases hs5 : (searchSfx fy5At lower).bind
              (fun g => fyResultDMY g.1 g.2.1 g.2.2 orig) with
          | some rx =>
            simp only [hs5] at h
            have hx := map_some_ok h
            subst hx
            exact fyPat_bind_type hs5
          | none =>
            simp only [hs5] at h
            exact Option.noConfusion (Except.ok.inj h)

/-- `quarterFromQY` results are quarters. -/
lemma quarterFromQY_type {q fy : Nat} {orig : String} {r : PeriodInfo}
    (h : quarterFromQY q fy orig = .ok r) : r.period_type = "quarter" := by
  unfold quarterFromQY at h
  simp only [Bind.bind, Except.bind, pure, Except.pure] at h
  repeat' split at h
  all_goals
    first
      | exact (Except.noConfusion h)
      | (injection h with h; subst h; rfl)

/-- Every successful `_parse_quarter` result is a quarter. -/
lemma parseQuarter_type {lower : List Char} {orig : String}
    {r : PeriodInfo} (h : parseQuarter lower orig = .ok (some r)) :
    r.period_type = "quarter" := by
  unfold parseQuarter at h
  cases hs1 : searchSfx (qNumAt ['q'] "quarter".data) lower with
  | some g =>
    obtain ⟨q, fy⟩ := g
    simp only [hs1] at h
    exact quarterFromQY_type (map_some_ok h)
  | none =>
    simp only [hs1] at h
    cases hs2 : searchSfx q2At lower with
    | some g =>
      obtain ⟨q, fy⟩ := g
      simp only [hs2] at h
      exact quarterFromQY_type (map_some_ok h)
    | none =>
      simp only [hs2] at h
      cases hs3 : searchSfx (monthsEndedAt "three".data) lower with
      | some g =>
        obtain ⟨d, mon, y⟩ := g
        simp only [hs3] at h
        split at h
        · exact Option.noConfusion (Except.ok.inj h)
        · obtain ⟨x1, x2, hf⟩ := bind2_pure_eq h
          injection hf with hf
          rw [← hf]
      | none =>
        simp only [hs3] at h
        exact Option.noConfusion (Except.ok.inj h)

/-- Every successful `_parse_half_year` result is a half year. -/
lemma parseHalfYear_type {lower : List Char} {orig : String}
    {r : PeriodInfo} (h : parseHalfYear lower orig = .ok (some r)) :
    r.period_type = "half_year" := by
  unfold parseHalfYear at h
  cases hs1 : searchSfx (qNumAt ['h'] "half".data) lower with
  | some g =>
    obtain ⟨hf, fy⟩ := g
    simp only [hs1] at h
    split at h
    all_goals
      obtain ⟨x1, x2, hfe⟩ := bind2_pure_eq h
    all_goals injection hfe with hfe
    all_goals rw [← hfe]
  | none =>
    simp only [hs1] at h
    cases hs2 : searchSfx (monthsEndedAt "six".data) lower with
    | some g =>
      obtain ⟨d, mon, y⟩ := g
      simp only [hs2] at h
      split at h
      · exact Option.noConfusion (Except.ok.inj h)
      · obtain ⟨x1, x2, hfe⟩ := bind2_pure_eq h
        injection hfe with hfe
        rw [← hfe]
    | none =>
      simp only [hs2] at h
      exact Option.noConfusion (Except.ok.inj h)

/-- Every successful `parse_period_label` result has one of the three
period types. -/
lemma parsePeriodLabel_type {L : String} {r : PeriodInfo}
    (h : parsePeriodLabel L = .ok (some r)) :
    r.period_type = "fiscal_year" ∨ r.period_type = "quarter" ∨
      r.period_type = "half_year" := by
  unfold parsePeriodLabel at h
  cases hf : parseFiscalYear (pyLower (pyStrip L.data)) ⟨pyStrip L.data⟩ with
  | error e => simp [hf, Bind.bind, Except.bind] at h
  | ok o =>
    cases o with
    | some p =>
      simp only [hf, Bind.bind, Except.bind, pure, Except.pure,
        Except.ok.injEq, Option.some.injEq] at h
      subst h
      exact Or.inl (parseFiscalYear_type hf)
    | none =>
      simp only [hf, Bind.bind, Except.bind] at h
      cases hq : parseQuarter (pyLower (pyStrip L.data)) ⟨pyStrip L.data⟩ with
      | error e => simp [hq, Bind.bind, Except.bind] at h
      | ok o2 =>
        cases o2 with
        | some p =>
          simp only [hq, Bind.bind, Except.bind, pure, Except.pure,
            Except.ok.injEq, Option.some.injEq] at h
          subst h
          exact Or.inr (Or.inl (parseQuarter_type hq))
        | none =>
          simp only [hq, Bind.bind, Except.bind] at h
          cases hh : parseHalfYear (pyLower (pyStrip L.data))
              ⟨pyStrip L.data⟩ with
          | error e => simp [hh, Bind.bind, Except.bind] at h
          | ok o3 =>
            cases o3 with
            | some p =>
              simp only [hh, Bind.bind, Except.bind, pure, Except.pure,
                Except.ok.injEq, Option.some.injEq] at h
              subst h
              exact Or.inr (Or.inr (parseHalfYear_type hh))
            | none =>
              simp only [hh, Bind.bind, Except.bind, pure,
                Except.pure] at h
              exact Option.noConfusion (Except.ok.inj h)

/-- C5 (counterexample): the period round trip fails for quarter labels.
`"Q1 2023"` parses as quarter 1 of fiscal year 2023, normalizes to
`"Q1-2023"`, but `"Q1-2023"` matches none of the parse patterns (the
quarter regex requires the four-digit year to follow the quarter digit
with only optional whitespace and an optional `FY`, not a dash), so
re-parsing the normalized label fails. -/
theorem claim5_period_roundtrip_cex :
    parsePeriodLabel "Q1 2023" =
      .ok (some ⟨"quarter", ⟨2023, 1, 1⟩, ⟨2023, 3, 31⟩, 2023, some 1, none,
        "Q1 2023"⟩) ∧
    normalizePeriodLabel "Q1 2023" = .ok "Q1-2023" ∧
    parsePeriodLabel "Q1-2023" = .ok none := by
  refine ⟨rfl, rfl, rfl⟩

/-- C5 (amended): for every label `L` that `parse_period_label` parses,
`normalize_period_label L` has one of the forms `FY{y}`, `Q{q}-{y}`,
`H{h}-{y}`; and when `L` parses as a fiscal year with a four-digit year
(1000-9999), re-parsing the normalized label succeeds with the same
`period_type` and `fiscal_year`.  For quarter and half-year labels the
normalized label does not re-parse (shown at `Q1-2023` / `H1-2023`;
see the counterexample). -/
theorem claim5_period_roundtrip_amended (L : String) (r : PeriodInfo)
    (hp : parsePeriodLabel L = .ok (some r)) :
    (normalizePeriodLabel L = .ok ("FY" ++ pyStrNat r.fiscal_year) ∨
     normalizePeriodLabel L =
       .ok ("Q" ++ pyStrNat (r.quarter.getD 0) ++ "-" ++
         pyStrNat r.fiscal_year) ∨
     normalizePeriodLabel L =
       .ok ("H" ++ pyStrNat (r.half.getD 0) ++ "-" ++
         pyStrNat r.fiscal_year)) ∧
    (r.period_type = "fiscal_year" → 1000 ≤ r.fiscal_year →
      r.fiscal_year ≤ 9999 →
      normalizePeriodLabel L = .ok ("FY" ++ pyStrNat r.fiscal_year) ∧
      parsePeriodLabel ("FY" ++ pyStrNat r.fiscal_year) =
        .ok (some ⟨"fiscal_year", ⟨r.fiscal_year - 1, 1, 1⟩,
          ⟨r.fiscal_year, 12, 31⟩, r.fiscal_year, none, none,
          "FY" ++ pyStrNat r.fiscal_year⟩)) ∧
    parsePeriodLabel "Q1-2023" = .ok none ∧
    parsePeriodLabel "H1-2023" = .ok none := by
  refine ⟨?_, ?_, rfl, rfl⟩
  · rcases parsePeriodLabel_type hp with ht | ht | ht
    · left
      rw [normalizePeriodLabel, hp, ebind_ok]
      dsimp only
      rw [ht]
      rfl
    · right; left
      rw [normalizePeriodLabel, hp, ebind_ok]
      dsimp only
      rw [ht]
      rfl
    · right; right
      rw [normalizePeriodLabel, hp, ebind_ok]
      dsimp only
      rw [ht]
      rfl
  · intro hpt h1 h2
    constructor
    · rw [normalizePeriodLabel, hp, ebind_ok]
      dsimp only
      rw [hpt]
      rfl
    · exact parse_FY_pyStrNat h1 h2

/-- C5 (witness): a concrete instance of the amended round-trip theorem at
`L = "FY2023"`. -/
theorem claim5_period_roundtrip_witness :
    normalizePeriodLabel "FY2023" = .ok ("FY" ++ pyStrNat 2023) ∧
    parsePeriodLabel ("FY" ++ pyStrNat 2023) =
      .ok (some ⟨"fiscal_year", ⟨2022, 1, 1⟩, ⟨2023, 12, 31⟩, 2023, none,
        none, "FY" ++ pyStrNat 2023⟩) :=
  (claim5_period_roundtrip_amended "FY2023"
    ⟨"fiscal_year", ⟨2022, 1, 1⟩, ⟨2023, 12, 31⟩, 2023, none, none,
      "FY2023"⟩ rfl).2.1 rfl (by norm_num) (by norm_num)

/-! ## Candidate generator (`src/services/candidate_generator.py`)

`_parse_numeric_value` tries the four `VALUE_PATTERNS` in order (these
searches are case-sensitive), after detecting currency and scale with
case-insensitive searches of `CURRENCY_PATTERNS` / `SCALE_PATTERNS`. -/

/-- Maximal run of characters satisfying `p`. -/
def readRunBy (p : Char → Bool) : List Char → (List Char × List Char)
  | [] => ([], [])
  | c :: cs =>
    if p c then ((c :: (readRunBy p cs).1, (readRunBy p cs).2))
    else ([], c :: cs)

/-- The group `[\d,]+(?:\.\d+)?`: a maximal digit-or-comma run (at least
one character), optionally followed by `.` and a maximal nonempty digit
run.  Greediness is deterministic in every pattern that uses the group
(what follows can never consume a digit, a comma or a dot). -/
def readNumGroup (cs : List Char) : Option (List Char × List Char) :=
  let g1 := (readRunBy (fun c => isDig c || c == ',') cs).1
  let r1 := (readRunBy (fun c => isDig c || c == ',') cs).2
  if g1.isEmpty then none
  else
    match r1 with
    | '.' :: r2 =>
      if (readRunBy isDig r2).1.isEmpty then some (g1, r1)
      else some (g1 ++ '.' :: (readRunBy isDig r2).1, (readRunBy isDig r2).2)
    | _ => some (g1, r1)

/-- Value pattern 1 `(?:£|GBP|USD|\$|€|EUR)\s*([\d,]+(?:\.\d+)?)` at one
position (case-sensitive), returning the captured number group. -/
def p1At (cs : List Char) : Option (List Char) :=
  let tryLit : List Char → Option (List Char) := fun l =>
    (lit cs l).bind fun r => (readNumGroup (dropWsLeft r)).map (·.1)
  match tryLit "£".data with
  | some g => some g
  | none => match tryLit "GBP".data with
    | some g => some g
    | none => match tryLit "USD".data with
      | some g => some g
      | none => match tryLit "$".data with
        | some g => some g
        | none => match tryLit "€".data with
          | some g => some g
          | none => tryLit "EUR".data

/-- Value pattern 2
`([\d,]+(?:\.\d+)?)\s*(?:million|mn|m|billion|bn|b|thousand|k)` at one
position (case-sensitive). -/
def p2At (cs : List Char) : Option (List Char) :=
  (readNumGroup cs).bind fun gr =>
    let r2 := dropWsLeft gr.2
    if startsList r2 "million".data || startsList r2 "mn".data ||
        startsList r2 "m".data || startsList r2 "billion".data ||
        startsList r2 "bn".data || startsList r2 "b".data ||
        startsList r2 "thousand".data || startsList r2 "k".data then
      some gr.1
    else none

/-- Value pattern 3 `\(\s*([\d,]+(?:\.\d+)?)\s*\)` at one position. -/
def p3At (cs : List Char) : Option (List Char) :=
  match cs with
  | '(' :: r1 =>
    (readNumGroup (dropWsLeft r1)).bind fun gr =>
      match dropWsLeft gr.2 with
      | ')' :: _ => some gr.1
      | _ => none
  | _ => none

/-- Value pattern 4 `([\d,]+(?:\.\d+)?)` at one position. -/
def p4At (cs : List Char) : Option (List Char) :=
  (readNumGroup cs).map (·.1)

/-- One alternative of a scale/currency regex: a literal, and whether a
word boundary `\b` must follow it. -/
def matchAltAt (cs : List Char) (alt : List Char × Bool) : Bool :=
  startsList cs alt.1 &&
    (!alt.2 ||
      (match cs.drop alt.1.length with
       | [] => true
       | c :: _ => !isWordChar c))

/-- `re.search` of an alternation of literals (with optional trailing word
boundaries) over a lowercased string. -/
def searchAny (alts : List (List Char × Bool)) : List Char → Bool
  | [] => alts.any (matchAltAt [])
  | c :: cs => alts.any (matchAltAt (c :: cs)) || searchAny alts cs

/-- `CURRENCY_PATTERNS` detection: first of GBP, USD, EUR whose pattern
matches (case-insensitive), defaulting to GBP. -/
def detectCurrency (s : List Char) : String :=
  let ls := pyLower s
  if searchAny [("£".data, false), ("gbp".data, false), ("pound".data, false)] ls
    then "GBP"
  else if searchAny [("$".data, false), ("usd".data, false), ("dollar".data, false)] ls
    then "USD"
  else if searchAny [("€".data, false), ("eur".data, false), ("euro".data, false)] ls
    then "EUR"
  else "GBP"

/-- `SCALE_PATTERNS` detection: first of millions, billions, thousands
whose pattern matches (case-insensitive), defaulting to millions. -/
def detectScale (s : List Char) : String :=
  let ls := pyLower s
  if searchAny [("million".data, false), ("mn".data, false), ("m".data, true)] ls
    then "millions"
  else if searchAny [("billion".data, false), ("bn".data, false), ("b".data, true)] ls
    then "billions"
  else if searchAny [("thousand".data, false), ("k".data, true)] ls
    then "thousands"
  else "millions"

/-- Numeric value of a digit character list (most significant first). -/
def charsVal (l : List Char) : Nat :=
  l.foldl (fun a c => 10 * a + digitVal c) 0

/-- `Decimal(num_str)` for the comma-stripped capture groups: optional
integer digits `ip`, then optionally a dot and fraction digits `fp`; at
least one digit overall (otherwise `InvalidOperation`, modelled as
`none`).  The decimal `ip.fp` denotes the rational
`(ip * 10 ^ |fp| + fp) / 10 ^ |fp|`, built with `mkRat`. -/
def decOfChars (g : List Char) : Option Rat :=
  let ip := (readRunBy isDig g).1
  match (readRunBy isDig g).2 with
  | [] => if ip.isEmpty then none else some (mkRat (charsVal ip) 1)
  | '.' :: fp =>
    if fp.isEmpty || !fp.all isDig then none
    else some (mkRat (charsVal ip * 10 ^ fp.length + charsVal fp) (10 ^ fp.length))
  | _ => none

/-- `num_str.replace(',', '')`. -/
def stripCommas (g : List Char) : List Char :=
  g.filter (fun c => c ≠ ',')

/-- The result dictionary of `_parse_numeric_value`. -/
structure ParsedNum where
  value : Rat
  currency : String
  scale : String
  deriving DecidableEq, Repr

/-- `_parse_numeric_value`: strip, detect currency and scale, set the sign
from the presence of both parentheses, then try the four value patterns in
order (a pattern whose captured group fails `Decimal` conversion falls
through to the next pattern). -/
def parseNumericValue (value : String) : Option ParsedNum :=
  let s := pyStrip value.data
  if s.isEmpty then none
  else
    let currency := detectCurrency s
    let scale := detectScale s
    let isNeg := containsList s ['('] && containsList s [')']
    let tryPat : (List Char → Option (List Char)) → Option Rat := fun pat =>
      (searchSfx pat s).bind (fun g => decOfChars (stripCommas g))
    let mk : Rat → ParsedNum := fun q =>
      ⟨if isNeg then -q else q, currency, scale⟩
    match tryPat p1At with
    | some q => some (mk q)
    | none => match tryPat p2At with
      | some q => some (mk q)
      | none => match tryPat p3At with
        | some q => some (mk q)
        | none => (tryPat p4At).map mk

/-- `Section` (`src/models/schemas.py`). -/
structure Section where
  section_id : String
  section_type : String
  section_name : String
  start_page : Nat
  end_page : Nat
  confidence_score : Rat
  detection_method : String
  deriving DecidableEq, Repr

/-- `TableBlock` with the fields the embedded paths read (cells are the
`str()` of the stored values). -/
structure TableBlock where
  table_id : String
  page_number : Nat
  headers : List (List String)
  data : List (List String)
  deriving DecidableEq, Repr

/-- `_detect_period_columns`: try to parse every nonempty header cell as a
period label; record the column index, the stripped label and the parse
result.  Parsing may raise (invalid dates), hence `Except`. -/
def detectPeriodColumnsGo (idx : Nat) :
    List String → Except PyErr (List (Nat × String × PeriodInfo))
  | [] => .ok []
  | cell :: rest => do
    let tail ← detectPeriodColumnsGo (idx + 1) rest
    if cell.isEmpty then
      pure tail
    else
      match ← parsePeriodLabel ⟨pyStrip cell.data⟩ with
      | some p => pure ((idx, ⟨pyStrip cell.data⟩, p) :: tail)
      | none => pure tail

/-- `_detect_period_columns` over a header row. -/
def detectPeriodColumns (headerRow : List String) :
    Except PyErr (List (Nat × String × PeriodInfo)) :=
  detectPeriodColumnsGo 0 headerRow

/-- `_create_candidate` for the table path (`uuid.uuid4()` is abstracted
as the empty id; no claim depends on candidate ids). -/
def createTableCandidate (standardLabel : String) (pn : ParsedNum)
    (periodEnd : PyDate) (sec : Section) (tableId : String)
    (rowIdx colIdx : Nat) (rawLabel cellValue periodLabel : String) :
    CandidateValue :=
  { candidate_id := ""
    metric_name := standardLabel
    value := pn.value
    currency := pn.currency
    scale := pn.scale
    period_end_date := some periodEnd
    section_type := sec.section_type
    source := .table_cell
    confidence_score := 0
    evidence := [
      ("table_id", some tableId),
      ("row_index", some (pyStrNat rowIdx)),
      ("column_index", some (pyStrNat colIdx)),
      ("raw_label", some rawLabel),
      ("raw_value", some cellValue),
      ("period_label", some periodLabel),
      ("section_id", some sec.section_id)] }

/-- The inner loop of `_extract_from_table` over the period columns of one
data row. -/
def extractRowCells (row : List String) (standardLabel rawLabel : String)
    (sec : Section) (tableId : String) (rowIdx : Nat)
    (cols : List (Nat × String × PeriodInfo)) : List CandidateValue :=
  cols.foldr (fun col acc =>
    match row.get? col.1 with
    | none => acc
    | some cell =>
      match parseNumericValue cell with
      | none => acc
      | some pn =>
        createTableCandidate standardLabel pn col.2.2.end_date sec tableId
          rowIdx col.1 rawLabel cell col.2.1 :: acc) []

/-- The row loop of `_extract_from_table` (rows below the header row,
`row_idx` is the absolute index in `table.data`). -/
def extractRowsGo (sec : Section) (tableId : String)
    (cols : List (Nat × String × PeriodInfo)) (rowIdx : Nat) :
    List (List String) → List CandidateValue
  | [] => []
  | row :: rest =>
    let tail := extractRowsGo sec tableId cols (rowIdx + 1) rest
    if row.isEmpty then tail
    else
      match row.head? with
      | none => tail
      | some firstCell =>
        let rawLabel : String := ⟨pyStrip firstCell.data⟩
        if rawLabel.isEmpty then tail
        else
          extractRowCells row (standardizeLabel rawLabel) rawLabel sec
            tableId rowIdx cols ++ tail

/-- `_extract_from_table` (with `target_metrics=None`): the first row of
`table.data` is the header row, period columns are detected from it, and
each later row contributes one candidate per period column whose cell
parses numerically. -/
def extractFromTable (table : TableBlock) (sec : Section) :
    Except PyErr (List CandidateValue) := do
  match table.data with
  | [] => pure []
  | headerRow :: dataRows =>
    let cols ← detectPeriodColumns headerRow
    pure (extractRowsGo sec table.table_id cols 1 dataRows)

/-! ## Candidate scoring (`CandidateGenerator._score_candidates`) -/

/-- The confidence assigned by `_score_candidates` to one candidate: the
accumulated points (over 100) divided by 100. -/
def scoreCandidate (c : CandidateValue) : Rat :=
  mkRat (((if c.source == EvidenceSource.table_cell then 40
     else if c.source == EvidenceSource.text_block then 20 else 0) +
    (if c.section_type == "income_statement" ||
        c.section_type == "balance_sheet" ||
        c.section_type == "cash_flow_statement" then 20
     else if c.section_type == "notes" || c.section_type == "commentary"
       then 10 else 0) +
    (if c.period_end_date.isSome then 20 else 0) +
    min 20 ((c.evidence.filter (fun kv => kv.2.isSome)).length * 3) : Nat) :
    Int) 100

/-- Stable descending insertion (Python `list.sort(key=..., reverse=True)`
keeps the original order of candidates with equal confidence). -/
def insDesc (x : CandidateValue) : List CandidateValue → List CandidateValue
  | [] => [x]
  | y :: ys =>
    if y.confidence_score < x.confidence_score then x :: y :: ys
    else y :: insDesc x ys

/-- Stable sort, descending by confidence. -/
def sortDescByConf (l : List CandidateValue) : List CandidateValue :=
  l.foldl (fun acc x => insDesc x acc) []

/-- `_score_candidates`: set every confidence, then sort descending. -/
def scoreCandidates (cands : List CandidateValue) : List CandidateValue :=
  sortDescByConf
    (cands.map (fun c => { c with confidence_score := scoreCandidate c }))

/-! ### Sign of parenthesized values (C3) -/

lemma mem_of_dropWsLeft {x : Char} : ∀ {l : List Char},
    x ∈ dropWsLeft l → x ∈ l := by
  intro l
  induction l with
  | nil => simp [dropWsLeft]
  | cons c cs ih =>
    rw [dropWsLeft]
    split
    · intro h; exact List.mem_cons_of_mem c (ih h)
    · exact id

lemma readRunBy_append (p : Char → Bool) :
    ∀ l : List Char, (readRunBy p l).1 ++ (readRunBy p l).2 = l := by
  intro l
  induction l with
  | nil => rfl
  | cons c cs ih =>
    rw [readRunBy]
    split
    · simpa using ih
    · rfl

lemma mem_of_readRunBy_rest {p : Char → Bool} {x : Char} {l : List Char}
    (h : x ∈ (readRunBy p l).2) : x ∈ l := by
  rw [← readRunBy_append p l]
  exact List.mem_append_right _ h

lemma readNumGroup_rest_mem {x : Char} {l g r : List Char}
    (h : readNumGroup l = some (g, r)) (hx : x ∈ r) : x ∈ l := by
  rw [readNumGroup] at h
  split at h
  · exact Option.noConfusion h
  · split at h
    · rename_i r2 heq
      split at h
      · injection h with h
        rw [Prod.mk.injEq] at h
        apply mem_of_readRunBy_rest (p := fun c => isDig c || c == ',')
        rw [← h.2] at hx
        exact hx
      · injection h with h
        rw [Prod.mk.injEq] at h
        apply mem_of_readRunBy_rest (p := fun c => isDig c || c == ',')
        rw [heq]
        refine List.mem_cons_of_mem _ ?_
        apply mem_of_readRunBy_rest (p := isDig)
        rw [← h.2] at hx
        exact hx
    · injection h with h
      rw [Prod.mk.injEq] at h
      apply mem_of_readRunBy_rest (p := fun c => isDig c || c == ',')
      rw [← h.2] at hx
      exact hx

lemma p3At_parens {cs g : List Char} (h : p3At cs = some g) :
    '(' ∈ cs ∧ ')' ∈ cs := by
  unfold p3At at h
  split at h
  · rename_i r1
    refine ⟨List.mem_cons_self _ _, ?_⟩
    rcases hbind : readNumGroup (dropWsLeft r1) with _ | gr
    · rw [hbind] at h; exact Option.noConfusion h
    · rw [hbind, Option.some_bind] at h
      split at h
      · rename_i heq
        refine List.mem_cons_of_mem _ ?_
        apply mem_of_dropWsLeft (l := r1)
        apply readNumGroup_rest_mem hbind
        apply mem_of_dropWsLeft
        rw [heq]
        exact List.mem_cons_self _ _
      · exact Option.noConfusion h
  · exact Option.noConfusion h

lemma searchSfx_p3_parens : ∀ {cs g : List Char},
    searchSfx p3At cs = some g → '(' ∈ cs ∧ ')' ∈ cs := by
  intro cs
  induction cs with
  | nil =>
    intro g h
    rw [searchSfx] at h
    exact Option.noConfusion h
  | cons c cs ih =>
    intro g h
    rw [searchSfx] at h
    split at h
    · rename_i heq
      exact p3At_parens heq
    · obtain ⟨h1, h2⟩ := ih h
      exact ⟨List.mem_cons_of_mem c h1, List.mem_cons_of_mem c h2⟩

lemma containsList_of_mem {x : Char} : ∀ {l : List Char},
    x ∈ l → containsList l [x] = true := by
  intro l
  induction l with
  | nil => simp
  | cons c cs ih =>
    intro h
    rw [containsList]
    rcases List.mem_cons.mp h with rfl | h2
    · simp [startsList]
    · simp [ih h2]

lemma charsVal_cast_nonneg (l : List Char) : (0 : Rat) ≤ (charsVal l : Nat) := by
  positivity

lemma decOfChars_nonneg {g : List Char} {q : Rat}
    (h : decOfChars g = some q) : 0 ≤ q := by
  rw [decOfChars] at h
  split at h
  · split at h
    · exact Option.noConfusion h
    · injection h with h
      rw [← h]
      exact Rat.mkRat_nonneg (by positivity) 1
  · split at h
    · exact Option.noConfusion h
    · injection h with h
      rw [← h]
      exact Rat.mkRat_nonneg (by positivity) _
  · exact Option.noConfusion h

lemma tryPat_nonneg {pat : List Char → Option (List Char)} {cs : List Char}
    {q : Rat}
    (h : (searchSfx pat cs).bind (fun g => decOfChars (stripCommas g)) =
      some q) : 0 ≤ q := by
  rcases hs : searchSfx pat cs with _ | g
  · rw [hs] at h; exact Option.noConfusion h
  · rw [hs, Option.some_bind] at h
    exact decOfChars_nonneg h

/-- C3 (counterexample): the parenthesized-sign claim fails on the code in
both of its parts.  First, the scenario S2 itself produces no candidate at
all: the header cell `"2023"` does not parse as a period label (no pattern
matches a bare year), so no period column is detected and
`_extract_from_table` returns the empty list.  Second, a parenthesized
zero such as `"(0)"` matches the parenthesized pattern yet parses to `0`,
which is not strictly negative. -/
theorem claim3_paren_negative_cex :
    extractFromTable ⟨"t1", 5, [], [["", "2023"],
        ["Operating expenses", "(250.5)"]]⟩
      ⟨"sec1", "income_statement", "Income Statement", 1, 9, 9 / 10,
        "regex"⟩ = .ok [] ∧
    parseNumericValue "(0)" = some ⟨0, "GBP", "millions"⟩ ∧
    ¬ (0 : Rat) < 0 := by
  refine ⟨by decide, by decide, by norm_num⟩

/-- C3 (amended): a cell matching the parenthesized pattern parses to a
nonpositive value (strictly negative whenever the numeral is nonzero, but
`"(0)"` parses to zero); the cell `"(250.5)"` itself parses to exactly
`-250.5` with default currency GBP and default scale millions; and under a
header that does parse as a period (for example `"FY2023"` instead of the
bare `"2023"`), the row `["Operating expenses", "(250.5)"]` yields exactly
one candidate with value `-250.5`, currency GBP, scale millions. -/
theorem claim3_paren_negative_amended :
    (∀ (s : String) (g : List Char) (r : ParsedNum),
      searchSfx p3At (pyStrip s.data) = some g →
      parseNumericValue s = some r → r.value ≤ 0) ∧
    parseNumericValue "(250.5)" =
      some ⟨-(mkRat 501 2), "GBP", "millions"⟩ ∧
    extractFromTable ⟨"t1", 5, [], [["", "FY2023"],
        ["Operating expenses", "(250.5)"]]⟩
      ⟨"sec1", "income_statement", "Income Statement", 1, 9, 9 / 10,
        "regex"⟩ =
      .ok [{ candidate_id := ""
             metric_name := "Operating expenses"
             value := -(mkRat 501 2)
             currency := "GBP"
             scale := "millions"
             period_end_date := some ⟨2023, 12, 31⟩
             section_type := "income_statement"
             source := .table_cell
             confidence_score := 0
             evidence := [
               ("table_id", some "t1"),
               ("row_index", some "1"),
               ("column_index", some "1"),
               ("raw_label", some "Operating expenses"),
               ("raw_value", some "(250.5)"),
               ("period_label", some "FY2023"),
               ("section_id", some "sec1")] }] := by
  refine ⟨?_, by decide, by decide⟩
  intro s g r hm hp
  rw [parseNumericValue] at hp
  split at hp
  · exact Option.noConfusion hp
  · obtain ⟨h1, h2⟩ := searchSfx_p3_parens hm
    have hneg : (containsList (pyStrip s.data) ['('] &&
        containsList (pyStrip s.data) [')']) = true := by
      rw [containsList_of_mem h1, containsList_of_mem h2]
      rfl
    rw [hneg] at hp
    dsimp only at hp
    have harm : ∀ q : Rat, 0 ≤ q →
        r = ⟨-q, detectCurrency (pyStrip s.data),
          detectScale (pyStrip s.data)⟩ → r.value ≤ 0 := by
      intro q hq hr
      rw [hr]
      simpa using hq
    split at hp
    · rename_i q hq
      exact harm q (tryPat_nonneg hq) (Option.some.inj hp).symm
    · split at hp
      · rename_i q hq
        exact harm q (tryPat_nonneg hq) (Option.some.inj hp).symm
      · split at hp
        · rename_i q hq
          exact harm q (tryPat_nonneg hq) (Option.some.inj hp).symm
        · rcases Option.map_eq_some'.mp hp with ⟨q, hq, hr⟩
          exact harm q (tryPat_nonneg hq) hr.symm

/-- C3 (witness): the amended nonpositivity theorem applied to the
concrete cell `"(250.5)"`. -/
theorem claim3_paren_negative_witness :
    (ParsedNum.mk (-(mkRat 501 2)) "GBP" "millions").value ≤ 0 :=
  claim3_paren_negative_amended.1 "(250.5)" "250.5".data
    ⟨-(mkRat 501 2), "GBP", "millions"⟩ (by decide) (by decide)

/-! ## Deterministic validator (`src/services/validators.py`)

Float-formatted fragments inside rule messages (for example the ratio
rendered with `:.2f`) are abstracted to fixed message texts; no claim
depends on them.  Divisions are performed through `safeDiv`, which makes a
division by zero observable as an `Except` error, so that theorems can
state that the guarded checks never produce one. -/

/-- Division that records a division by zero instead of performing it. -/
def safeDiv (a b : Rat) : Except PyErr Rat :=
  if b = 0 then .error .divByZero else .ok (a / b)

/-- The outcome of one rule check (`{"valid": ..., "message": ...}`). -/
structure RuleCheck where
  valid : Bool
  message : String
  deriving DecidableEq, Repr

/-- `ValidationResult` with the fields the claims read
(`validation_id` is a `uuid4`, abstracted as `""`; `rules_applied` and
`validation_details` are not consulted by any claim). -/
structure ValidationResult where
  validation_id : String
  candidate_id : String
  status : ValidationStatus
  issues : Option (List String)
  deriving DecidableEq, Repr

/-- `METRIC_BOUNDS` (bounds as multipliers of revenue). -/
def METRIC_BOUNDS : List (String × Rat × Rat) :=
  [ ("gross_profit", (0, 1)),
    ("operating_profit", (-(mkRat 1 2), 1)),
    ("net_income", (-1, 1)),
    ("ebitda", (-(mkRat 1 2), mkRat 3 2)),
    ("current_assets", (0, 10)),
    ("total_assets", (0, 50)),
    ("current_liabilities", (0, 10)),
    ("total_liabilities", (0, 50)),
    ("total_equity", (-5, 50)) ]

/-- `YOY_BOUNDS`. -/
def YOY_BOUNDS : List (String × Rat × Rat) :=
  [ ("revenue", (-(mkRat 1 2), 2)),
    ("gross_profit", (-(mkRat 7 10), 3)),
    ("operating_profit", (-2, 5)),
    ("net_income", (-3, 10)),
    ("total_assets", (-(mkRat 3 10), 1)),
    ("total_equity", (-(mkRat 1 2), mkRat 3 2)) ]

/-- `ARITHMETIC_RULES` (component labels per parent label). -/
def ARITHMETIC_RULES : List (String × List String) :=
  [ ("total_assets", ["current_assets", "non_current_assets"]),
    ("total_liabilities", ["current_liabilities", "non_current_liabilities"]),
    ("gross_profit", ["revenue", "cost_of_sales"]),
    ("operating_profit", ["gross_profit", "operating_expenses"]) ]

/-- Dictionary lookup in the (duplicate-free) rule tables. -/
def tblLookup (tbl : List (String × α)) (k : String) : Option α :=
  (tbl.find? (fun p => p.1 == k)).map (·.2)

/-- `_find_metric`: the first candidate with the given name whose period
matches (a `None` query period matches any candidate of that name). -/
def findMetric (cands : List CandidateValue) (name : String)
    (period : Option PyDate) : Option CandidateValue :=
  cands.find? (fun c =>
    c.metric_name == name && (period.isNone || c.period_end_date == period))

/-- `_check_unit_consistency`. -/
def checkUnitConsistency (c : CandidateValue) : RuleCheck :=
  if !(["GBP", "USD", "EUR"].contains c.currency) then
    ⟨false, "Invalid currency: " ++ c.currency⟩
  else if !(["actual", "thousands", "millions", "billions"].contains c.scale)
    then ⟨false, "Invalid scale: " ++ c.scale⟩
  else ⟨true, "Units are consistent"⟩

/-- `_check_range_bounds`: compare `value / revenue` of the same period
against `METRIC_BOUNDS`, passing when revenue is missing, the label has no
bounds, or revenue is zero. -/
def checkRangeBounds (c : CandidateValue) (all : List CandidateValue) :
    Except PyErr RuleCheck :=
  match findMetric all "revenue" c.period_end_date with
  | none => .ok ⟨true, "No bounds available"⟩
  | some revenue =>
    match tblLookup METRIC_BOUNDS c.metric_name with
    | none => .ok ⟨true, "No bounds available"⟩
    | some bd =>
      if revenue.value == 0 then
        .ok ⟨true, "Revenue is zero, cannot compute ratio"⟩
      else do
        let rt ← safeDiv c.value revenue.value
        if rt < bd.1 || rt > bd.2 then
          pure ⟨false, "Ratio outside bounds"⟩
        else
          pure ⟨true, "Ratio within bounds"⟩

/-- `_check_yoy_delta`: `None` when the candidate has no period; otherwise
compare the change against the prior-year candidate (same month and day,
year minus one; building that date can raise `ValueError`), skipping when
there is no prior value and passing when the prior value is zero. -/
def checkYoYDelta (c : CandidateValue) (all : List CandidateValue) :
    Except PyErr (Option RuleCheck) :=
  match c.period_end_date with
  | none => .ok none
  | some d => do
    let prevDate ← mkDate ((d.year : Int) - 1) d.month d.day
    match findMetric all c.metric_name (some prevDate) with
    | none => pure (some ⟨true, "No prior year data for comparison"⟩)
    | some prev =>
      if prev.value == 0 then
        pure (some ⟨true, "Prior year value is zero"⟩)
      else do
        let yoy ← safeDiv (c.value - prev.value) |prev.value|
        match tblLookup YOY_BOUNDS c.metric_name with
        | some bd =>
          if yoy < bd.1 || yoy > bd.2 then
            pure (some ⟨false, "YoY change outside bounds"⟩)
          else
            pure (some ⟨true, "YoY change is reasonable"⟩)
        | none => pure (some ⟨true, "YoY change is reasonable"⟩)

/-- Collect the component values for an arithmetic rule; `none` as soon as
one component is missing for the period. -/
def collectComponents (all : List CandidateValue) (period : Option PyDate) :
    List String → Option (List Rat)
  | [] => some []
  | comp :: rest =>
    match findMetric all comp period with
    | none => none
    | some v => (collectComponents all period rest).map (v.value :: ·)

/-- `_check_arithmetic`: compare the candidate against the combination of
its components (sum for the totals, difference for the profit rules)
within `tolerance × |expected|`.  No operation here can raise. -/
def checkArithmetic (c : CandidateValue) (all : List CandidateValue)
    (tolerance : Rat) : RuleCheck :=
  match tblLookup ARITHMETIC_RULES c.metric_name with
  | none => ⟨true, "No arithmetic rules apply"⟩
  | some comps =>
    match collectComponents all c.period_end_date comps with
    | none => ⟨true, "Missing component"⟩
    | some vals =>
      let expected : Option Rat :=
        if c.metric_name == "total_assets" ||
            c.metric_name == "total_liabilities" then
          some (vals.foldl (· + ·) 0)
        else if c.metric_name == "gross_profit" then
          some (vals.headD 0 - (vals.drop 1).headD 0)
        else if c.metric_name == "operating_profit" then
          some (vals.headD 0 - (vals.drop 1).headD 0)
        else none
      match expected with
      | none => ⟨true, "Unknown arithmetic rule"⟩
      | some e =>
        if e == 0 then ⟨true, "Expected value is zero"⟩
        else if |c.value - e| > |e * tolerance| then
          ⟨false, "Arithmetic mismatch"⟩
        else ⟨true, "Arithmetic consistent"⟩

/-- The issue list accumulated by `_validate_candidate` (one entry per
failed check; a `None` YoY check contributes nothing). -/
def issueList (unit rg : RuleCheck) (yoy : Option RuleCheck)
    (ar : RuleCheck) : List String :=
  (if unit.valid then [] else ["Unit inconsistency: " ++ unit.message]) ++
  (if rg.valid then [] else ["Range violation: " ++ rg.message]) ++
  (match yoy with
   | none => []
   | some y => if y.valid then [] else ["YoY anomaly: " ++ y.message]) ++
  (if ar.valid then [] else ["Arithmetic error: " ++ ar.message])

/-- `_validate_candidate`: run the four checks in order, collect issues,
and derive the status from the number of issues (`validation_id` is a
`uuid4`, abstracted as `""`). -/
def validateCandidate (c : CandidateValue) (all : List CandidateValue)
    (tolerance : Rat) : Except PyErr ValidationResult := do
  let rg ← checkRangeBounds c all
  let yoy ← checkYoYDelta c all
  let issues := issueList (checkUnitConsistency c) rg yoy
    (checkArithmetic c all tolerance)
  pure ⟨"", c.candidate_id,
    (if issues.length == 0 then .valid
     else if 2 ≤ issues.length then .invalid
     else .needs_review),
    (if issues.isEmpty then none else some issues)⟩

/-- `ValidationAggregator.get_candidates_needing_adjudication`. -/
def getCandidatesNeedingAdjudication (results : List ValidationResult) :
    List String :=
  (results.filter (fun r =>
    r.status == ValidationStatus.needs_review ||
      r.status == ValidationStatus.invalid)).map (·.candidate_id)

/-- The number of rule issues raised by the four checks. -/
def numIssues (unit rg : RuleCheck) (yoy : Option RuleCheck)
    (ar : RuleCheck) : Nat :=
  (if unit.valid then 0 else 1) + (if rg.valid then 0 else 1) +
    (match yoy with
     | none => 0
     | some y => if y.valid then 0 else 1) +
    (if ar.valid then 0 else 1)

lemma issueList_length (unit rg : RuleCheck) (yoy : Option RuleCheck)
    (ar : RuleCheck) :
    (issueList unit rg yoy ar).length = numIssues unit rg yoy ar := by
  rw [issueList.eq_def, numIssues.eq_def]
  cases yoy with
  | none => split_ifs <;> simp
  | some y => split_ifs <;> simp <;> split_ifs <;> simp

lemma ebind_err (e : ε) (f : α → Except ε β) :
    (Except.error e : Except ε α) >>= f = .error e := rfl

lemma numIssues_two_le (u rg : RuleCheck) (yoy : Option RuleCheck)
    (a : RuleCheck) (hu : u.valid = false)
    (hx : rg.valid = false ∨ (∃ y, yoy = some y ∧ y.valid = false) ∨
      a.valid = false) : 2 ≤ numIssues u rg yoy a := by
  unfold numIssues
  rcases hx with he | ⟨y, hy, hyv⟩ | he
  · simp [hu, he]; omega
  · subst hy; simp [hu, hyv]; omega
  · simp [hu, he]; omega

/-- A candidate with currency "XYZ" (property S4); its metric name matches
no bounds table and it has no period, so the unit rule is the only issue. -/
def c1Cand : CandidateValue :=
  ⟨"cand-1", "headline_figure", mkRat 100 1, "XYZ", "millions", none,
   "income_statement", .table_cell, 0, []⟩

/-- C1: for every candidate on which `_validate_candidate` returns, the
resulting status is determined solely by the number of issues raised by the
four checks (unit, range, YoY, arithmetic): zero issues means valid,
exactly one means needs_review, two or more mean invalid; a candidate with
currency "XYZ" always gets a unit-rule issue, and any one additional
failing rule makes its overall status invalid. -/
theorem claim1_status_aggregation (c : CandidateValue)
    (all : List CandidateValue) (tol : Rat) (r : ValidationResult)
    (h : validateCandidate c all tol = .ok r) :
    ∃ rg yoy n, checkRangeBounds c all = .ok rg ∧
      checkYoYDelta c all = .ok yoy ∧
      n = numIssues (checkUnitConsistency c) rg yoy
        (checkArithmetic c all tol) ∧
      (r.status = .valid ↔ n = 0) ∧
      (r.status = .needs_review ↔ n = 1) ∧
      (r.status = .invalid ↔ 2 ≤ n) ∧
      (c.currency = "XYZ" → (checkUnitConsistency c).valid = false ∧
        ((rg.valid = false ∨ (∃ y, yoy = some y ∧ y.valid = false) ∨
            (checkArithmetic c all tol).valid = false) →
          r.status = .invalid)) := by
  unfold validateCandidate at h
  cases hrg : checkRangeBounds c all with
  | error e => rw [hrg, ebind_err] at h; exact absurd h (by simp)
  | ok rg =>
  rw [hrg, ebind_ok] at h
  cases hyoy : checkYoYDelta c all with
  | error e => rw [hyoy, ebind_err] at h; exact absurd h (by simp)
  | ok yoy =>
  rw [hyoy, ebind_ok] at h
  simp only [pure, Except.pure] at h
  injection h with h
  have hs : r.status =
      (if numIssues (checkUnitConsistency c) rg yoy
          (checkArithmetic c all tol) == 0 then ValidationStatus.valid
       else if 2 ≤ numIssues (checkUnitConsistency c) rg yoy
          (checkArithmetic c all tol) then ValidationStatus.invalid
       else ValidationStatus.needs_review) := by
    rw [← h]
    dsimp only
    rw [issueList_length]
  have hiffs : (r.status = ValidationStatus.valid ↔
        numIssues (checkUnitConsistency c) rg yoy
          (checkArithmetic c all tol) = 0) ∧
      (r.status = ValidationStatus.needs_review ↔
        numIssues (checkUnitConsistency c) rg yoy
          (checkArithmetic c all tol) = 1) ∧
      (r.status = ValidationStatus.invalid ↔
        2 ≤ numIssues (checkUnitConsistency c) rg yoy
          (checkArithmetic c all tol)) := by
    rw [hs]
    rcases numIssues (checkUnitConsistency c) rg yoy
      (checkArithmetic c all tol) with _ | _ | m
    · refine ⟨?_, ?_, ?_⟩ <;> simp
    · refine ⟨?_, ?_, ?_⟩ <;> simp
    · have h2 : 2 ≤ m + 2 := by omega
      refine ⟨?_, ?_, ?_⟩ <;> simp [h2]
  have hu : c.currency = "XYZ" → (checkUnitConsistency c).valid = false := by
    intro hx
    rw [checkUnitConsistency.eq_def, hx]
    rfl
  refine ⟨rg, yoy, _, rfl, rfl, rfl, hiffs.1, hiffs.2.1, hiffs.2.2, ?_⟩
  intro hx
  refine ⟨hu hx, fun hextra => ?_⟩
  rw [hiffs.2.2]
  exact numIssues_two_le _ _ _ _ (hu hx) hextra

/-- C1 (witness): the status-aggregation theorem at the "XYZ" candidate of
property S4, validated against itself; the single unit issue yields
needs_review. -/
theorem claim1_status_aggregation_witness :
    ∃ rg yoy n, checkRangeBounds c1Cand [c1Cand] = .ok rg ∧
      checkYoYDelta c1Cand [c1Cand] = .ok yoy ∧
      n = numIssues (checkUnitConsistency c1Cand) rg yoy
        (checkArithmetic c1Cand [c1Cand] (mkRat 1 20)) ∧
      (ValidationStatus.needs_review = ValidationStatus.valid ↔ n = 0) ∧
      (ValidationStatus.needs_review = ValidationStatus.needs_review ↔
        n = 1) ∧
      (ValidationStatus.needs_review = ValidationStatus.invalid ↔ 2 ≤ n) ∧
      (c1Cand.currency = "XYZ" →
        (checkUnitConsistency c1Cand).valid = false ∧
        ((rg.valid = false ∨ (∃ y, yoy = some y ∧ y.valid = false) ∨
            (checkArithmetic c1Cand [c1Cand] (mkRat 1 20)).valid = false) →
          ValidationStatus.needs_review = ValidationStatus.invalid)) :=
  claim1_status_aggregation c1Cand [c1Cand] (mkRat 1 20)
    ⟨"", "cand-1", ValidationStatus.needs_review,
      some ["Unit inconsistency: Invalid currency: XYZ"]⟩ (by decide)

/-- Python dict insertion with insertion-order semantics: an existing key
is updated in place, a new key is appended at the end. -/
def dictInsert (m : List (String × α)) (k : String) (v : α) :
    List (String × α) :=
  if m.any (fun p => p.1 == k) then
    m.map (fun p => if p.1 == k then (p.1, v) else p)
  else m ++ [(k, v)]

/-- Python dict lookup (first binding of the key). -/
def dictFind (m : List (String × α)) (k : String) : Option α :=
  (m.find? (fun p => p.1 == k)).map (·.2)

/-- The outer key used by `_create_metrics_dict`: the metric name
lowercased with each space replaced by an underscore. -/
def growthKey (m : FinancialMetric) : String :=
  ⟨(pyLower m.metric_name.data).map (fun ch => if ch = ' ' then '_' else ch)⟩

/-- `_create_metrics_dict`: nested dict from metric name to a dict from
period string (`str(period_end_date.year)`) to the metric. -/
def createMetricsDict (metrics : List FinancialMetric) :
    List (String × List (String × FinancialMetric)) :=
  metrics.foldl (fun md metric =>
    match dictFind md (growthKey metric) with
    | none => dictInsert md (growthKey metric)
        (dictInsert [] (pyStrNat metric.period_end_date.year) metric)
    | some inner => dictInsert md (growthKey metric)
        (dictInsert inner (pyStrNat metric.period_end_date.year) metric)) []

/-- Lexicographic code-point order on character lists (Python string
comparison). -/
def charListLt : List Char → List Char → Bool
  | [], [] => false
  | [], _ :: _ => true
  | _ :: _, [] => false
  | a :: as, b :: bs =>
    if a.toNat < b.toNat then true
    else if b.toNat < a.toNat then false
    else charListLt as bs

/-- Python string comparison. -/
def pyStrLt (a b : String) : Bool := charListLt a.data b.data

/-- Ascending insertion used to model Python `sorted` on the (unique)
period keys. -/
def insAscStr (x : String) : List String → List String
  | [] => [x]
  | y :: ys => if pyStrLt y x then y :: insAscStr x ys else x :: y :: ys

/-- Python `sorted` over string keys. -/
def sortStrAsc (l : List String) : List String :=
  l.foldl (fun acc x => insAscStr x acc) []

/-- `_calculate_growth_rate`: `None` when the prior value is zero,
otherwise the exact ratio; the configured bounds only produce a warning
and never change the result. -/
def calculateGrowthRate (current prior : Rat) : Option Rat :=
  if prior == 0 then none
  else some ((current - prior) / |prior|)

/-- The `growth_targets` table of `_compute_growth_rates`. -/
def GROWTH_TARGETS : List (String × String) :=
  [("revenue", "Revenue Growth"), ("ebitda", "EBITDA Growth"),
   ("net_income", "Net Income Growth"),
   ("operating_profit", "Operating Profit Growth")]

/-- The metrics emitted by one consecutive period pair of one growth
target inside `_compute_growth_rates` (the loop body over `i`). -/
def growthOfPair (key disp : String)
    (inner : List (String × FinancialMetric)) (pr cur : String) :
    List FinancialMetric :=
  match dictFind inner cur, dictFind inner pr with
  | some curM, some prM =>
    match calculateGrowthRate curM.value prM.value with
    | none => []
    | some g =>
      [⟨key ++ "_growth_" ++ cur, disp ++ " YoY", g, "", "actual",
        curM.period_end_date, curM.entity_type, some .calculated,
        some ("Calculated from " ++ pr ++ " to " ++ cur), none, none⟩]
  | _, _ => []

/-- The metrics emitted for one growth target: every consecutive pair of
the sorted period keys. -/
def growthForTarget (md : List (String × List (String × FinancialMetric)))
    (key disp : String) : List FinancialMetric :=
  match dictFind md key with
  | none => []
  | some inner =>
    (((sortStrAsc (inner.map (·.1))).zip
        ((sortStrAsc (inner.map (·.1))).drop 1)).map
      (fun pc => growthOfPair key disp inner pc.1 pc.2)).flatten

/-- `_compute_growth_rates` over all four growth targets. -/
def computeGrowthRates
    (md : List (String × List (String × FinancialMetric))) :
    List FinancialMetric :=
  (GROWTH_TARGETS.map (fun t => growthForTarget md t.1 t.2)).flatten

/-- Property S1 input: revenue 1100 millions GBP at 2023-12-31. -/
def s1Rev2023 : FinancialMetric :=
  ⟨"revenue_2023", "Revenue", mkRat 1100 1, "GBP", "millions",
   ⟨2023, 12, 31⟩, .consolidated, some .table, none, none, none⟩

/-- Property S1 input: revenue 1000 millions GBP at 2022-12-31. -/
def s1Rev2022 : FinancialMetric :=
  ⟨"revenue_2022", "Revenue", mkRat 1000 1, "GBP", "millions",
   ⟨2022, 12, 31⟩, .consolidated, some .table, none, none, none⟩

/-- C2: for each growth target and each consecutive pair of sorted period
keys, a nonzero prior value makes `_compute_growth_rates` emit the
YoY metric with the exact ratio of the difference over the absolute prior
value, scale "actual" and the calculated extraction method, with no
condition on the configured bounds; a zero prior value emits nothing for
that pair; and property S1 holds: revenue 1100 at 2023-12-31 over 1000 at
2022-12-31 yields exactly one metric, Revenue Growth YoY with value
one tenth. -/
theorem claim2_growth_rates (metrics : List FinancialMetric)
    (key disp : String) (hk : (key, disp) ∈ GROWTH_TARGETS)
    (inner : List (String × FinancialMetric))
    (hinner : dictFind (createMetricsDict metrics) key = some inner)
    (pr cur : String) (prM curM : FinancialMetric)
    (hpair : (pr, cur) ∈ (sortStrAsc (inner.map (·.1))).zip
      ((sortStrAsc (inner.map (·.1))).drop 1))
    (hprM : dictFind inner pr = some prM)
    (hcurM : dictFind inner cur = some curM) :
    (prM.value ≠ 0 →
      (⟨key ++ "_growth_" ++ cur, disp ++ " YoY",
        (curM.value - prM.value) / |prM.value|, "", "actual",
        curM.period_end_date, curM.entity_type, some .calculated,
        some ("Calculated from " ++ pr ++ " to " ++ cur), none, none⟩ :
        FinancialMetric) ∈
          computeGrowthRates (createMetricsDict metrics)) ∧
    (prM.value = 0 → growthOfPair key disp inner pr cur = []) ∧
    computeGrowthRates (createMetricsDict [s1Rev2023, s1Rev2022]) =
      [⟨"revenue_growth_2023", "Revenue Growth YoY", mkRat 1 10, "",
        "actual", ⟨2023, 12, 31⟩, .consolidated, some .calculated,
        some "Calculated from 2022 to 2023", none, none⟩] := by
  refine ⟨?_, ?_, ?_⟩
  · intro hnz
    have hcg : calculateGrowthRate curM.value prM.value =
        some ((curM.value - prM.value) / |prM.value|) := by
      unfold calculateGrowthRate
      rw [if_neg (by simpa using hnz)]
    have hgp : growthOfPair key disp inner pr cur =
        [⟨key ++ "_growth_" ++ cur, disp ++ " YoY",
          (curM.value - prM.value) / |prM.value|, "", "actual",
          curM.period_end_date, curM.entity_type, some .calculated,
          some ("Calculated from " ++ pr ++ " to " ++ cur), none,
          none⟩] := by
      unfold growthOfPair
      rw [hcurM, hprM]
      dsimp only
      rw [hcg]
    unfold computeGrowthRates
    rw [List.mem_flatten]
    refine ⟨growthForTarget (createMetricsDict metrics) key disp,
      List.mem_map_of_mem _ hk, ?_⟩
    unfold growthForTarget
    rw [hinner]
    dsimp only
    rw [List.mem_flatten]
    refine ⟨growthOfPair key disp inner pr cur,
      List.mem_map_of_mem _ hpair, ?_⟩
    rw [hgp]
    exact List.mem_singleton_self _
  · intro hz
    have hcg : calculateGrowthRate curM.value prM.value = none := by
      unfold calculateGrowthRate
      rw [if_pos (by simp [hz])]
    unfold growthOfPair
    rw [hcurM, hprM]
    dsimp only
    rw [hcg]
  · have h1 : computeGrowthRates (createMetricsDict
        [s1Rev2023, s1Rev2022]) =
        [⟨"revenue_growth_2023", "Revenue Growth YoY",
          (mkRat 1100 1 - mkRat 1000 1) / |mkRat 1000 1|, "", "actual",
          ⟨2023, 12, 31⟩, .consolidated, some .calculated,
          some "Calculated from 2022 to 2023", none, none⟩] := rfl
    rw [h1]
    have h2 : (mkRat 1100 1 - mkRat 1000 1) / |mkRat 1000 1| =
        mkRat 1 10 := by
      simp only [Rat.mkRat_eq_div]
      norm_num
    rw [h2]

/-- C2 (witness): the growth theorem instantiated at the S1 inputs, where
the prior revenue is the 2022 value 1000 and the current is the 2023
value 1100. -/
theorem claim2_growth_rates_witness :
    ((⟨"revenue_growth_2023", "Revenue Growth YoY",
      (s1Rev2023.value - s1Rev2022.value) / |s1Rev2022.value|, "",
      "actual", s1Rev2023.period_end_date, s1Rev2023.entity_type,
      some .calculated, some "Calculated from 2022 to 2023", none,
      none⟩ : FinancialMetric) ∈
        computeGrowthRates (createMetricsDict [s1Rev2023, s1Rev2022])) ∧
    computeGrowthRates (createMetricsDict [s1Rev2023, s1Rev2022]) =
      [⟨"revenue_growth_2023", "Revenue Growth YoY", mkRat 1 10, "",
        "actual", ⟨2023, 12, 31⟩, .consolidated, some .calculated,
        some "Calculated from 2022 to 2023", none, none⟩] :=
  have h := claim2_growth_rates [s1Rev2023, s1Rev2022]
    "revenue" "Revenue Growth" (by decide)
    [("2023", s1Rev2023), ("2022", s1Rev2022)] (by decide)
    "2022" "2023" s1Rev2022 s1Rev2023 (by decide) (by decide) (by decide)
  ⟨h.1 (by decide), h.2.2⟩

/-- Column count used by `_tables_similar`:
`len(table.data[0]) if table.data else 0`. -/
def colCount (t : TableBlock) : Nat :=
  match t.data with
  | [] => 0
  | r :: _ => r.length

/-- The stripped first cell of the first data row, when both the data and
its first row are nonempty. -/
def firstCell (t : TableBlock) : Option (List Char) :=
  match t.data with
  | [] => none
  | r :: _ =>
    match r with
    | [] => none
    | c :: _ => some (pyStrip c.data)

/-- `_tables_similar`: same page, row counts within 2, column counts
within 1, and identical nonempty stripped first cells. -/
def tablesSimilar (t1 t2 : TableBlock) : Bool :=
  if t1.page_number != t2.page_number then false
  else if 2 < ((t1.data.length : Int) - (t2.data.length : Int)).natAbs ||
      1 < ((colCount t1 : Int) - (colCount t2 : Int)).natAbs then false
  else
    match firstCell t1, firstCell t2 with
    | some c1, some c2 => !c1.isEmpty && !c2.isEmpty && c1 == c2
    | _, _ => false

/-- The camelot half of `_merge_tables`: append the table to the bucket
of its page (dict keys stay in first-insertion order, as in Python). -/
def addCamelot : List (Nat × List TableBlock) → TableBlock →
    List (Nat × List TableBlock)
  | [], t => [(t.page_number, [t])]
  | (p, ts) :: rest, t =>
    if p = t.page_number then (p, ts ++ [t]) :: rest
    else (p, ts) :: addCamelot rest t

/-- The pdfplumber half of `_merge_tables`: append the table to the
bucket of its page unless it is similar to some table already there. -/
def addPdfplumber : List (Nat × List TableBlock) → TableBlock →
    List (Nat × List TableBlock)
  | [], t => [(t.page_number, [t])]
  | (p, ts) :: rest, t =>
    if p = t.page_number then
      (if ts.any (fun ex => tablesSimilar t ex) then (p, ts) :: rest
       else (p, ts ++ [t]) :: rest)
    else (p, ts) :: addPdfplumber rest t

/-- Ascending insertion by page key, used to model the iteration over
`sorted(tables_by_page.keys())` (the keys are distinct). -/
def insAscPage (x : Nat × List TableBlock) :
    List (Nat × List TableBlock) → List (Nat × List TableBlock)
  | [] => [x]
  | y :: ys => if y.1 < x.1 then y :: insAscPage x ys else x :: y :: ys

/-- Sort the page buckets by page number. -/
def sortByPage (l : List (Nat × List TableBlock)) :
    List (Nat × List TableBlock) :=
  l.foldl (fun acc x => insAscPage x acc) []

/-- `_merge_tables`: group camelot tables by page, add non-duplicate
pdfplumber tables, then flatten the buckets in ascending page order. -/
def mergeTables (camelot pdfplumber : List TableBlock) :
    List TableBlock :=
  ((sortByPage (pdfplumber.foldl addPdfplumber
    (camelot.foldl addCamelot []))).map (·.2)).flatten

lemma tablesSimilar_ne_page {a b : TableBlock}
    (h : a.page_number ≠ b.page_number) : tablesSimilar a b = false := by
  unfold tablesSimilar
  rw [if_pos (by simpa using h)]

lemma tablesSimilar_comm (a b : TableBlock) :
    tablesSimilar a b = tablesSimilar b a := by
  by_cases hp : a.page_number = b.page_number
  · unfold tablesSimilar
    rw [hp]
    have hd : ((a.data.length : Int) - (b.data.length : Int)).natAbs =
        ((b.data.length : Int) - (a.data.length : Int)).natAbs := by omega
    have hc : ((colCount a : Int) - (colCount b : Int)).natAbs =
        ((colCount b : Int) - (colCount a : Int)).natAbs := by omega
    rw [hd, hc]
    cases h1 : firstCell a with
    | none => cases h2 : firstCell b <;> simp
    | some c1 =>
      cases h2 : firstCell b with
      | none => simp
      | some c2 =>
        by_cases he : c1 = c2
        · subst he
          dsimp only
        · dsimp only
          rw [beq_eq_false_iff_ne.mpr he,
            beq_eq_false_iff_ne.mpr (Ne.symm he)]
          simp
  · rw [tablesSimilar_ne_page hp, tablesSimilar_ne_page (Ne.symm hp)]

/-- The dedup invariant on the page buckets: distinct page keys, every
table filed under its own page, and every later table in a bucket
dissimilar from every earlier one. -/
def TbpOk (tbp : List (Nat × List TableBlock)) : Prop :=
  (tbp.map (·.1)).Nodup ∧
  ∀ pr ∈ tbp, (∀ t ∈ pr.2, t.page_number = pr.1) ∧
    List.Pairwise (fun a b => tablesSimilar b a = false) pr.2

/-- Membership across all page buckets. -/
def inTbp (tbp : List (Nat × List TableBlock)) (u : TableBlock) : Prop :=
  ∃ pr ∈ tbp, u ∈ pr.2

lemma addCamelot_keys (tbp : List (Nat × List TableBlock))
    (t : TableBlock) :
    (addCamelot tbp t).map (·.1) = tbp.map (·.1) ∨
    (addCamelot tbp t).map (·.1) = tbp.map (·.1) ++ [t.page_number] := by
  induction tbp with
  | nil => right; rfl
  | cons pr rest ih =>
    obtain ⟨p, ts⟩ := pr
    unfold addCamelot
    by_cases hp : p = t.page_number
    · rw [if_pos hp]; left; rfl
    · rw [if_neg hp]
      dsimp only [List.map]
      rcases ih with h | h
      · left; rw [h]
      · right; rw [h]; rfl

lemma addPdfplumber_keys (tbp : List (Nat × List TableBlock))
    (t : TableBlock) :
    (addPdfplumber tbp t).map (·.1) = tbp.map (·.1) ∨
    (addPdfplumber tbp t).map (·.1) =
      tbp.map (·.1) ++ [t.page_number] := by
  induction tbp with
  | nil => right; rfl
  | cons pr rest ih =>
    obtain ⟨p, ts⟩ := pr
    unfold addPdfplumber
    by_cases hp : p = t.page_number
    · rw [if_pos hp]
      split <;> (left; rfl)
    · rw [if_neg hp]
      dsimp only [List.map]
      rcases ih with h | h
      · left; rw [h]
      · right; rw [h]; rfl

lemma addCamelot_ok (tbp : List (Nat × List TableBlock)) (t : TableBlock)
    (h : TbpOk tbp)
    (hdis : ∀ u, inTbp tbp u → tablesSimilar t u = false) :
    TbpOk (addCamelot tbp t) ∧
    (∀ u, inTbp (addCamelot tbp t) u → u = t ∨ inTbp tbp u) := by
  induction tbp with
  | nil =>
    refine ⟨⟨by simp [addCamelot], ?_⟩, ?_⟩
    · intro pr hpr
      simp only [addCamelot, List.mem_singleton] at hpr
      subst hpr
      exact ⟨by simp, by simp⟩
    · intro u hu
      obtain ⟨pr, hpr, hmem⟩ := hu
      simp only [addCamelot, List.mem_singleton] at hpr
      subst hpr
      simp only [List.mem_singleton] at hmem
      exact Or.inl hmem
  | cons pr rest ih =>
    obtain ⟨p, ts⟩ := pr
    obtain ⟨hnd, hbk⟩ := h
    simp only [List.map, List.nodup_cons] at hnd
    by_cases hp : p = t.page_number
    · refine ⟨⟨?_, ?_⟩, ?_⟩
      · unfold addCamelot
        rw [if_pos hp]
        simpa using hnd
      · intro q hq
        unfold addCamelot at hq
        rw [if_pos hp] at hq
        rcases List.mem_cons.mp hq with hq | hq
        · subst hq
          obtain ⟨hpage, hpw⟩ := hbk (p, ts) (List.mem_cons_self _ _)
          refine ⟨?_, ?_⟩
          · intro x hx
            rcases List.mem_append.mp hx with hx | hx
            · exact hpage x hx
            · simp only [List.mem_singleton] at hx
              subst hx
              exact hp.symm
          · rw [List.pairwise_append]
            refine ⟨hpw, by simp, ?_⟩
            intro a ha b hb
            simp only [List.mem_singleton] at hb
            subst hb
            exact hdis a ⟨(p, ts), List.mem_cons_self _ _, ha⟩
        · exact hbk q (List.mem_cons_of_mem _ hq)
      · intro u hu
        obtain ⟨q, hq, hmem⟩ := hu
        unfold addCamelot at hq
        rw [if_pos hp] at hq
        rcases List.mem_cons.mp hq with hq | hq
        · subst hq
          rcases List.mem_append.mp hmem with hm | hm
          · exact Or.inr ⟨(p, ts), List.mem_cons_self _ _, hm⟩
          · simp only [List.mem_singleton] at hm
            exact Or.inl hm
        · exact Or.inr ⟨q, List.mem_cons_of_mem _ hq, hmem⟩
    · have hrest : TbpOk rest :=
        ⟨hnd.2, fun q hq => hbk q (List.mem_cons_of_mem _ hq)⟩
      have hdis2 : ∀ u, inTbp rest u → tablesSimilar t u = false :=
        fun u ⟨q, hq, hm⟩ =>
          hdis u ⟨q, List.mem_cons_of_mem _ hq, hm⟩
      obtain ⟨⟨hnd2, hbk2⟩, hmem2⟩ := ih hrest hdis2
      refine ⟨⟨?_, ?_⟩, ?_⟩
      · unfold addCamelot
        rw [if_neg hp]
        dsimp only [List.map]
        rw [List.nodup_cons]
        refine ⟨?_, hnd2⟩
        rcases addCamelot_keys rest t with hk | hk
        · rw [hk]; exact hnd.1
        · rw [hk]
          intro hcon
          rcases List.mem_append.mp hcon with hc | hc
          · exact hnd.1 hc
          · simp only [List.mem_singleton] at hc
            exact hp hc
      · intro q hq
        unfold addCamelot at hq
        rw [if_neg hp] at hq
        rcases List.mem_cons.mp hq with hq | hq
        · subst hq
          exact hbk (p, ts) (List.mem_cons_self _ _)
        · exact hbk2 q hq
      · intro u hu
        obtain ⟨q, hq, hmem⟩ := hu
        unfold addCamelot at hq
        rw [if_neg hp] at hq
        rcases List.mem_cons.mp hq with hq | hq
        · subst hq
          exact Or.inr ⟨(p, ts), List.mem_cons_self _ _, hmem⟩
        · rcases hmem2 u ⟨q, hq, hmem⟩ with hm | ⟨r, hr, hrm⟩
          · exact Or.inl hm
          · exact Or.inr ⟨r, List.mem_cons_of_mem _ hr, hrm⟩

lemma addPdfplumber_ok (tbp : List (Nat × List TableBlock))
    (t : TableBlock) (h : TbpOk tbp) :
    TbpOk (addPdfplumber tbp t) := by
  induction tbp with
  | nil =>
    refine ⟨by simp [addPdfplumber], ?_⟩
    intro pr hpr
    simp only [addPdfplumber, List.mem_singleton] at hpr
    subst hpr
    exact ⟨by simp, by simp⟩
  | cons pr rest ih =>
    obtain ⟨p, ts⟩ := pr
    obtain ⟨hnd, hbk⟩ := h
    simp only [List.map, List.nodup_cons] at hnd
    by_cases hp : p = t.page_number
    · unfold addPdfplumber
      rw [if_pos hp]
      cases hg : ts.any (fun ex => tablesSimilar t ex) with
      | true =>
        rw [if_pos rfl]
        exact ⟨by simpa using hnd, hbk⟩
      | false =>
        rw [if_neg (by simp)]
        refine ⟨by simpa using hnd, ?_⟩
        intro q hq
        rcases List.mem_cons.mp hq with hq | hq
        · subst hq
          obtain ⟨hpage, hpw⟩ := hbk (p, ts) (List.mem_cons_self _ _)
          refine ⟨?_, ?_⟩
          · intro x hx
            rcases List.mem_append.mp hx with hx | hx
            · exact hpage x hx
            · simp only [List.mem_singleton] at hx
              subst hx
              exact hp.symm
          · rw [List.pairwise_append]
            refine ⟨hpw, by simp, ?_⟩
            intro a ha b hb
            simp only [List.mem_singleton] at hb
            subst hb
            have := List.any_eq_false.mp hg a ha
            simpa using this
        · exact hbk q (List.mem_cons_of_mem _ hq)
    · have hrest : TbpOk rest :=
        ⟨hnd.2, fun q hq => hbk q (List.mem_cons_of_mem _ hq)⟩
      obtain ⟨hnd2, hbk2⟩ := ih hrest
      unfold addPdfplumber
      rw [if_neg hp]
      refine ⟨?_, ?_⟩
      · dsimp only [List.map]
        rw [List.nodup_cons]
        refine ⟨?_, hnd2⟩
        rcases addPdfplumber_keys rest t with hk | hk
        · rw [hk]; exact hnd.1
        · rw [hk]
          intro hcon
          rcases List.mem_append.mp hcon with hc | hc
          · exact hnd.1 hc
          · simp only [List.mem_singleton] at hc
            exact hp hc
      · intro q hq
        rcases List.mem_cons.mp hq with hq | hq
        · subst hq
          exact hbk (p, ts) (List.mem_cons_self _ _)
        · exact hbk2 q hq

lemma camFold_ok (cam : List TableBlock) :
    ∀ (seen : List TableBlock) (tbp : List (Nat × List TableBlock)),
    TbpOk tbp →
    (∀ u, inTbp tbp u → u ∈ seen) →
    List.Pairwise (fun a b => tablesSimilar b a = false) (seen ++ cam) →
    TbpOk (cam.foldl addCamelot tbp) ∧
    (∀ u, inTbp (cam.foldl addCamelot tbp) u → u ∈ seen ++ cam) := by
  induction cam with
  | nil =>
    intro seen tbp h1 h2 _
    exact ⟨h1, fun u hu => by simpa using h2 u hu⟩
  | cons t cam ih =>
    intro seen tbp h1 h2 h3
    have hdis : ∀ u, inTbp tbp u → tablesSimilar t u = false := by
      intro u hu
      exact (List.pairwise_append.mp h3).2.2 u (h2 u hu) t
        (List.mem_cons_self _ _)
    obtain ⟨hok, hmm⟩ := addCamelot_ok tbp t h1 hdis
    have h2b : ∀ u, inTbp (addCamelot tbp t) u → u ∈ seen ++ [t] := by
      intro u hu
      rcases hmm u hu with h | h
      · subst h; simp
      · exact List.mem_append.mpr (Or.inl (h2 u h))
    have h3b : List.Pairwise (fun a b => tablesSimilar b a = false)
        ((seen ++ [t]) ++ cam) := by
      rw [List.append_assoc]
      simpa using h3
    obtain ⟨hres, hresm⟩ := ih (seen ++ [t]) (addCamelot tbp t) hok h2b h3b
    refine ⟨hres, ?_⟩
    intro u hu
    have := hresm u hu
    rw [List.append_assoc] at this
    simpa using this

lemma pdfFold_ok (pdf : List TableBlock) :
    ∀ tbp, TbpOk tbp → TbpOk (pdf.foldl addPdfplumber tbp) := by
  induction pdf with
  | nil => intro tbp h; exact h
  | cons t pdf ih => intro tbp h; exact ih _ (addPdfplumber_ok tbp t h)

lemma insAscPage_perm (x : Nat × List TableBlock)
    (l : List (Nat × List TableBlock)) :
    (insAscPage x l).Perm (x :: l) := by
  induction l with
  | nil => exact List.Perm.refl _
  | cons y ys ih =>
    unfold insAscPage
    split
    · exact (List.Perm.cons y ih).trans (List.Perm.swap x y ys)
    · exact List.Perm.refl _

lemma foldl_insAscPage_perm (l : List (Nat × List TableBlock)) :
    ∀ acc, (l.foldl (fun acc x => insAscPage x acc) acc).Perm
      (acc ++ l) := by
  induction l with
  | nil => intro acc; simp
  | cons x xs ih =>
    intro acc
    have h1 := ih (insAscPage x acc)
    have h2 : (insAscPage x acc ++ xs).Perm ((x :: acc) ++ xs) :=
      (insAscPage_perm x acc).append_right xs
    have h3 : ((x :: acc) ++ xs).Perm (acc ++ x :: xs) :=
      List.perm_middle.symm
    exact h1.trans (h2.trans h3)

lemma sortByPage_perm (l : List (Nat × List TableBlock)) :
    (sortByPage l).Perm l := by
  have := foldl_insAscPage_perm l []
  simpa [sortByPage] using this

lemma TbpOk_perm {l1 l2 : List (Nat × List TableBlock)} (hp : l1.Perm l2)
    (h : TbpOk l1) : TbpOk l2 := by
  obtain ⟨hnd, hbk⟩ := h
  exact ⟨(hp.map (·.1)).nodup_iff.mp hnd,
    fun pr hpr => hbk pr (hp.mem_iff.mpr hpr)⟩

lemma tbpOk_flatten_pairwise (tbp : List (Nat × List TableBlock))
    (h : TbpOk tbp) :
    List.Pairwise (fun a b => tablesSimilar b a = false)
      ((tbp.map (·.2)).flatten) := by
  obtain ⟨hnd, hbk⟩ := h
  rw [List.pairwise_join]
  refine ⟨?_, ?_⟩
  · intro l hl
    obtain ⟨pr, hpr, rfl⟩ := List.mem_map.mp hl
    exact (hbk pr hpr).2
  · rw [List.pairwise_map]
    have hk : tbp.Pairwise (fun a b => a.1 ≠ b.1) :=
      List.pairwise_map.mp hnd
    refine List.Pairwise.imp_of_mem ?_ hk
    intro pr1 pr2 h1 h2 hne a ha b hb
    apply tablesSimilar_ne_page
    rw [(hbk pr1 h1).1 a ha, (hbk pr2 h2).1 b hb]
    exact fun hc => hne hc.symm

/-- A camelot table that `_merge_tables` keeps. -/
def c7T1 : TableBlock :=
  ⟨"t1", 1, [], [["Revenue", "100"], ["Costs", "50"]]⟩

/-- A second camelot table identical to the first up to its id. -/
def c7T2 : TableBlock :=
  ⟨"t2", 1, [], [["Revenue", "100"], ["Costs", "50"]]⟩

/-- A pdfplumber table with a different first cell. -/
def c7T3 : TableBlock :=
  ⟨"t3", 1, [], [["Equity", "5"], ["Debt", "7"]]⟩

/-- C7 (counterexample): the dedup-closure claim is false for the code:
camelot tables are grouped without any similarity check, so two identical
camelot tables on the same page both reach the merged output even though
their row and column deltas are zero and their stripped first cells are
equal and nonempty. -/
theorem claim7_dedup_closure_cex :
    c7T1 ∈ mergeTables [c7T1, c7T2] [] ∧
    c7T2 ∈ mergeTables [c7T1, c7T2] [] ∧
    c7T1 ≠ c7T2 ∧
    c7T1.page_number = c7T2.page_number ∧
    ¬2 < ((c7T1.data.length : Int) - (c7T2.data.length : Int)).natAbs ∧
    ¬1 < ((colCount c7T1 : Int) - (colCount c7T2 : Int)).natAbs ∧
    firstCell c7T1 = some "Revenue".data ∧
    firstCell c7T2 = some "Revenue".data ∧
    "Revenue".data ≠ [] ∧
    tablesSimilar c7T1 c7T2 = true := by decide

/-- C7 (amended): only pdfplumber tables are deduplicated against the
tables already grouped for their page, so the pairwise dissimilarity of
the merged output holds under the extra hypothesis that the camelot
tables are already pairwise dissimilar; the similarity test itself is
symmetric, and a failed test between same-page tables always yields one
of the three escape conditions of the original claim. -/
theorem claim7_dedup_closure_amended
    (camelot pdfplumber : List TableBlock)
    (hcam : List.Pairwise (fun a b => tablesSimilar b a = false)
      camelot) :
    List.Pairwise (fun a b => tablesSimilar b a = false)
      (mergeTables camelot pdfplumber) ∧
    (∀ a b : TableBlock, tablesSimilar a b = tablesSimilar b a) ∧
    (∀ t u : TableBlock, t.page_number = u.page_number →
      tablesSimilar t u = false →
      2 < ((t.data.length : Int) - (u.data.length : Int)).natAbs ∨
      1 < ((colCount t : Int) - (colCount u : Int)).natAbs ∨
      ¬∃ c1 c2, firstCell t = some c1 ∧ firstCell u = some c2 ∧
        c1 ≠ [] ∧ c2 ≠ [] ∧ c1 = c2) := by
  refine ⟨?_, tablesSimilar_comm, ?_⟩
  · have h1 : TbpOk (camelot.foldl addCamelot []) ∧ _ :=
      camFold_ok camelot [] [] ⟨by simp, by simp⟩
        (fun u hu => absurd hu (by rintro ⟨pr, hpr, _⟩; simp at hpr))
        (by simpa using hcam)
    have h2 : TbpOk (pdfplumber.foldl addPdfplumber
        (camelot.foldl addCamelot [])) :=
      pdfFold_ok pdfplumber _ h1.1
    have h3 : TbpOk (sortByPage (pdfplumber.foldl addPdfplumber
        (camelot.foldl addCamelot []))) :=
      TbpOk_perm (sortByPage_perm _).symm h2
    exact tbpOk_flatten_pairwise _ h3
  · intro t u hpage hsim
    unfold tablesSimilar at hsim
    rw [if_neg (by simp [hpage])] at hsim
    by_cases hd : (decide
        (2 < ((t.data.length : Int) - (u.data.length : Int)).natAbs) ||
        decide (1 < ((colCount t : Int) - (colCount u : Int)).natAbs))
        = true
    · have := hd
      simp only [Bool.or_eq_true, decide_eq_true_eq] at this
      rcases this with h | h
      · exact Or.inl h
      · exact Or.inr (Or.inl h)
    · rw [if_neg hd] at hsim
      refine Or.inr (Or.inr ?_)
      rintro ⟨c1, c2, hc1, hc2, hne1, hne2, heq⟩
      rw [hc1, hc2] at hsim
      subst heq
      simp [List.isEmpty_iff, hne1] at hsim

/-- C7 (witness): the amended theorem at one camelot table, a duplicate
pdfplumber table (skipped) and a distinct pdfplumber table (kept). -/
theorem claim7_dedup_closure_witness :
    List.Pairwise (fun a b => tablesSimilar b a = false)
      (mergeTables [c7T1] [c7T2, c7T3]) ∧
    (∀ a b : TableBlock, tablesSimilar a b = tablesSimilar b a) ∧
    (∀ t u : TableBlock, t.page_number = u.page_number →
      tablesSimilar t u = false →
      2 < ((t.data.length : Int) - (u.data.length : Int)).natAbs ∨
      1 < ((colCount t : Int) - (colCount u : Int)).natAbs ∨
      ¬∃ c1 c2, firstCell t = some c1 ∧ firstCell u = some c2 ∧
        c1 ≠ [] ∧ c2 ≠ [] ∧ c1 = c2) :=
  claim7_dedup_closure_amended [c7T1] [c7T2, c7T3] (by simp)

/-- Stable insertion by start page, used to model the Python
`sorted(sections, key=lambda s: s.start_page)`. -/
def insByStart (x : Section) : List Section → List Section
  | [] => [x]
  | y :: ys =>
    if y.start_page ≤ x.start_page then y :: insByStart x ys
    else x :: y :: ys

/-- Sort sections ascending by start page (stable). -/
def sortByStart (l : List Section) : List Section :=
  l.foldl (fun acc x => insByStart x acc) []

/-- The walk of `_merge_sections`: merge the running section with the
next one when they have the same type and the ranges touch or overlap,
otherwise emit the running section. -/
def mergeLoop (current : Section) : List Section → List Section
  | [] => [current]
  | nxt :: rest =>
    if nxt.section_type == current.section_type &&
        nxt.start_page ≤ current.end_page + 1 then
      mergeLoop ⟨current.section_id, current.section_type,
        current.section_name, current.start_page,
        max current.end_page nxt.end_page,
        max current.confidence_score nxt.confidence_score,
        current.detection_method⟩ rest
    else current :: mergeLoop nxt rest

/-- `_merge_sections`. -/
def mergeSections (sections : List Section) : List Section :=
  match sortByStart sections with
  | [] => []
  | first :: rest => mergeLoop first rest

lemma insByStart_perm (x : Section) (l : List Section) :
    (insByStart x l).Perm (x :: l) := by
  induction l with
  | nil => exact List.Perm.refl _
  | cons y ys ih =>
    unfold insByStart
    split
    · exact (List.Perm.cons y ih).trans (List.Perm.swap x y ys)
    · exact List.Perm.refl _

lemma insByStart_pairwise (x : Section) : ∀ (l : List Section),
    List.Pairwise (fun a b : Section => a.start_page ≤ b.start_page) l →
    List.Pairwise (fun a b : Section => a.start_page ≤ b.start_page)
      (insByStart x l) := by
  intro l
  induction l with
  | nil => intro _; simp [insByStart]
  | cons y ys ih =>
    intro hp
    rw [List.pairwise_cons] at hp
    obtain ⟨hy, hys⟩ := hp
    unfold insByStart
    by_cases hle : y.start_page ≤ x.start_page
    · rw [if_pos hle]
      rw [List.pairwise_cons]
      refine ⟨?_, ih hys⟩
      intro b hb
      rcases List.mem_cons.mp ((insByStart_perm x ys).mem_iff.mp hb)
        with hb | hb
      · subst hb; exact hle
      · exact hy b hb
    · rw [if_neg hle]
      rw [List.pairwise_cons]
      refine ⟨?_, List.pairwise_cons.mpr ⟨hy, hys⟩⟩
      intro b hb
      rcases List.mem_cons.mp hb with hb | hb
      · subst hb; omega
      · have := hy b hb; omega

lemma sortByStart_pairwise (l : List Section) :
    List.Pairwise (fun a b : Section => a.start_page ≤ b.start_page)
      (sortByStart l) := by
  suffices h : ∀ acc,
      List.Pairwise (fun a b : Section => a.start_page ≤ b.start_page)
        acc →
      List.Pairwise (fun a b : Section => a.start_page ≤ b.start_page)
        (l.foldl (fun acc x => insByStart x acc) acc) by
    exact h [] (by simp)
  induction l with
  | nil => intro acc h; exact h
  | cons x xs ih => intro acc h; exact ih _ (insByStart_pairwise x acc h)

lemma mergeLoop_head_shape : ∀ (l : List Section) (c : Section),
    ∃ h t, mergeLoop c l = h :: t ∧
      h.section_type = c.section_type ∧
      h.start_page = c.start_page ∧ c.end_page ≤ h.end_page := by
  intro l
  induction l with
  | nil =>
    intro c
    exact ⟨c, [], rfl, rfl, rfl, le_refl _⟩
  | cons nxt rest ih =>
    intro c
    unfold mergeLoop
    by_cases hc : (nxt.section_type == c.section_type &&
        decide (nxt.start_page ≤ c.end_page + 1)) = true
    · rw [if_pos hc]
      obtain ⟨h, t, heq, h1, h2, h3⟩ := ih _
      refine ⟨h, t, heq, h1, h2, ?_⟩
      dsimp only at h3
      exact le_trans (le_max_left _ _) h3
    · rw [if_neg hc]
      exact ⟨c, mergeLoop nxt rest, rfl, rfl, rfl, le_refl _⟩

lemma mergeLoop_chain_le : ∀ (l : List Section) (c : Section),
    List.Chain' (fun a b : Section => a.start_page ≤ b.start_page)
      (c :: l) →
    List.Chain' (fun a b : Section => a.start_page ≤ b.start_page)
      (mergeLoop c l) := by
  intro l
  induction l with
  | nil => intro c _; simp [mergeLoop]
  | cons nxt rest ih =>
    intro c hch
    rw [List.chain'_cons] at hch
    obtain ⟨hcn, hch2⟩ := hch
    unfold mergeLoop
    by_cases hc : (nxt.section_type == c.section_type &&
        decide (nxt.start_page ≤ c.end_page + 1)) = true
    · rw [if_pos hc]
      apply ih
      cases rest with
      | nil => simp
      | cons r2 t2 =>
        rw [List.chain'_cons] at hch2 ⊢
        refine ⟨?_, hch2.2⟩
        dsimp only
        omega
    · rw [if_neg hc]
      obtain ⟨h, t, heq, _, h2, _⟩ := mergeLoop_head_shape rest nxt
      rw [heq, List.chain'_cons]
      refine ⟨by omega, ?_⟩
      rw [← heq]
      exact ih _ hch2

lemma mergeLoop_chain_gap : ∀ (l : List Section) (c : Section),
    List.Chain' (fun a b : Section =>
      a.section_type = b.section_type → a.end_page + 1 < b.start_page)
      (mergeLoop c l) := by
  intro l
  induction l with
  | nil => intro c; simp [mergeLoop]
  | cons nxt rest ih =>
    intro c
    unfold mergeLoop
    by_cases hc : (nxt.section_type == c.section_type &&
        decide (nxt.start_page ≤ c.end_page + 1)) = true
    · rw [if_pos hc]
      exact ih _
    · rw [if_neg hc]
      obtain ⟨h, t, heq, h1, h2, _⟩ := mergeLoop_head_shape rest nxt
      rw [heq, List.chain'_cons]
      refine ⟨?_, by rw [← heq]; exact ih _⟩
      intro hty
      simp only [Bool.and_eq_true, beq_iff_eq, decide_eq_true_eq,
        not_and] at hc
      have hnt : nxt.section_type = c.section_type := by
        rw [← h1, ← hty]
      have := hc hnt
      omega

/-- A first balance-sheet section covering pages 1 to 10. -/
def c8X1 : Section :=
  ⟨"sx1", "balance_sheet", "Balance Sheet", 1, 10, mkRat 8 10, "regex"⟩

/-- A notes section between the two balance-sheet sections. -/
def c8Y : Section :=
  ⟨"sy", "notes", "Notes", 2, 3, mkRat 7 10, "regex"⟩

/-- A second balance-sheet section nested inside the first one. -/
def c8X2 : Section :=
  ⟨"sx2", "balance_sheet", "Balance Sheet 2", 5, 6, mkRat 9 10, "regex"⟩

/-- C8 (counterexample): after the merge stage, same-type sections can
still overlap: the walk only merges consecutive same-type entries of the
start-sorted list, so a different-type section in between separates two
overlapping same-type sections and both survive. -/
theorem claim8_section_merge_cex :
    mergeSections [c8X1, c8Y, c8X2] = [c8X1, c8Y, c8X2] ∧
    c8X1.section_type = c8X2.section_type ∧
    c8X2.start_page ≤ c8X1.end_page ∧
    c8X1.start_page ≤ c8X2.end_page ∧
    c8X1 ≠ c8X2 := by decide

/-- C8 (amended): the merged output is sorted by start page, and only
ADJACENT same-type sections are guaranteed disjoint: any two consecutive
output sections of the same type are separated by a gap of at least two
pages (the merge walk joins consecutive same-type sections whose ranges
touch or overlap). -/
theorem claim8_section_merge_amended (sections : List Section) :
    List.Pairwise (fun a b : Section => a.start_page ≤ b.start_page)
      (mergeSections sections) ∧
    List.Chain' (fun a b : Section =>
      a.section_type = b.section_type → a.end_page + 1 < b.start_page)
      (mergeSections sections) := by
  constructor
  · have hs := sortByStart_pairwise sections
    unfold mergeSections
    cases hss : sortByStart sections with
    | nil => simp
    | cons first rest =>
      rw [hss] at hs
      have hch := List.Pairwise.chain' hs
      have hml := mergeLoop_chain_le rest first hch
      haveI : IsTrans Section
          (fun a b : Section => a.start_page ≤ b.start_page) :=
        ⟨fun _ _ _ h1 h2 => le_trans h1 h2⟩
      exact List.chain'_iff_pairwise.mp hml
  · unfold mergeSections
    cases hss : sortByStart sections with
    | nil => simp
    | cons first rest => exact mergeLoop_chain_gap rest first

/-- Python `max(candidates, key=lambda c: c.confidence_score)`: the
running maximum is replaced only on a strictly greater key, so the first
maximal element wins. -/
def pyMaxByConf (c : CandidateValue) : List CandidateValue →
    CandidateValue
  | [] => c
  | x :: xs =>
    if c.confidence_score < x.confidence_score then pyMaxByConf x xs
    else pyMaxByConf c xs

/-- `_find_candidate_by_id`. -/
def findCandidateById (candidates : List CandidateValue) (cid : String) :
    Option CandidateValue :=
  candidates.find? (fun c => c.candidate_id == cid)

/-- `_candidate_to_metric`: the metric carries the candidate id, name,
value (or the alternative value when the LLM provides one), currency,
scale and period; the schema requires a date, so a candidate without one
cannot form a metric. -/
def candidateToMetric (candidate : CandidateValue)
    (llm_reasoning : Option String) (llm_confidence : Option Rat)
    (alternative_value : Option Rat) : Option FinancialMetric :=
  match candidate.period_end_date with
  | none => none
  | some pd => some
    ⟨candidate.candidate_id, candidate.metric_name,
     (match alternative_value with
      | some v => v
      | none => candidate.value),
     candidate.currency, candidate.scale, pd, .consolidated, none, none,
     llm_reasoning, llm_confidence⟩

/-- `_fallback_adjudication`: convert the highest-confidence candidate
(`max` raises on an empty group). -/
def fallbackAdjudication (candidates : List CandidateValue) :
    Option FinancialMetric :=
  match candidates with
  | [] => none
  | c :: rest => candidateToMetric (pyMaxByConf c rest) none none none

/-- The LLM interaction outcome of one adjudication group, abstracting
the client call and response parsing of `_adjudicate_with_llm`. -/
inductive LLMOutcome where
  | noClient
  | queryRaises
  | parseFails
  | parsed (selected_id : String) (confidence : Rat) (reasoning : String)
      (alternative_value : Option Rat)
  deriving DecidableEq, Repr

/-- The per-group logic of `adjudicate_candidates` around
`_adjudicate_with_llm`: a missing client falls back inside the call, a
raising query or parse is caught by the surrounding handler which falls
back, an unknown selected id falls back, and otherwise the selected
candidate is converted (a conversion error is also caught by the
surrounding handler). -/
def adjudicateGroup (candidates : List CandidateValue)
    (outcome : LLMOutcome) : Option FinancialMetric :=
  match outcome with
  | .noClient => fallbackAdjudication candidates
  | .queryRaises => fallbackAdjudication candidates
  | .parseFails => fallbackAdjudication candidates
  | .parsed sel conf reasoning alt =>
    match findCandidateById candidates sel with
    | none => fallbackAdjudication candidates
    | some selected =>
      match candidateToMetric selected (some reasoning) (some conf)
          alt with
      | some m => some m
      | none => fallbackAdjudication candidates

lemma pyMaxByConf_mem : ∀ (l : List CandidateValue)
    (c : CandidateValue), pyMaxByConf c l ∈ c :: l := by
  intro l
  induction l with
  | nil => intro c; exact List.mem_singleton_self c
  | cons x xs ih =>
    intro c
    unfold pyMaxByConf
    split
    · exact List.mem_cons_of_mem c (ih x)
    · rcases List.mem_cons.mp (ih c) with h | h
      · rw [h]; exact List.mem_cons_self _ _
      · exact List.mem_cons_of_mem c (List.mem_cons_of_mem x h)

lemma pyMaxByConf_ge : ∀ (l : List CandidateValue) (c : CandidateValue),
    ∀ u ∈ c :: l,
      u.confidence_score ≤ (pyMaxByConf c l).confidence_score := by
  intro l
  induction l with
  | nil =>
    intro c u hu
    rw [List.mem_singleton] at hu
    rw [hu]
    exact le_refl _
  | cons x xs ih =>
    intro c u hu
    unfold pyMaxByConf
    rcases List.mem_cons.mp hu with hu | hu
    · subst hu
      split
      · rename_i hlt
        exact le_trans (le_of_lt hlt) (ih x x (List.mem_cons_self _ _))
      · exact ih u u (List.mem_cons_self _ _)
    · rcases List.mem_cons.mp hu with hu | hu
      · subst hu
        split
        · exact ih u u (List.mem_cons_self _ _)
        · rename_i hnlt
          exact le_trans (not_lt.mp hnlt)
            (ih c c (List.mem_cons_self _ _))
      · split
        · exact ih x u (List.mem_cons_of_mem x hu)
        · exact ih c u (List.mem_cons_of_mem c hu)

/-- Adjudication-group candidate with the lower confidence. -/
def c9A : CandidateValue :=
  ⟨"cand-a", "revenue", mkRat 900 1, "GBP", "millions",
   some ⟨2023, 12, 31⟩, "income_statement", .table_cell, mkRat 6 10, []⟩

/-- Adjudication-group candidate with the higher confidence. -/
def c9B : CandidateValue :=
  ⟨"cand-b", "revenue", mkRat 905 1, "GBP", "millions",
   some ⟨2023, 12, 31⟩, "income_statement", .text_block, mkRat 8 10, []⟩

/-- C9: for every nonempty adjudication group, when the LLM client is
missing, the query or the response parsing raises, or the selected id is
unknown in the group, the emitted metric carries the id, name, value,
currency, scale and period of the first highest-confidence candidate of
the group, with the value unchanged; that candidate is a member of the
group and its confidence bounds every other confidence. -/
theorem claim9_adjudicator_fallback (c0 : CandidateValue)
    (rest : List CandidateValue) (outcome : LLMOutcome) (pd : PyDate)
    (hbest : (pyMaxByConf c0 rest).period_end_date = some pd)
    (hout : outcome = .noClient ∨ outcome = .queryRaises ∨
      outcome = .parseFails ∨
      (∃ sel conf reasoning alt,
        outcome = .parsed sel conf reasoning alt ∧
        findCandidateById (c0 :: rest) sel = none)) :
    adjudicateGroup (c0 :: rest) outcome =
      some ⟨(pyMaxByConf c0 rest).candidate_id,
        (pyMaxByConf c0 rest).metric_name, (pyMaxByConf c0 rest).value,
        (pyMaxByConf c0 rest).currency, (pyMaxByConf c0 rest).scale, pd,
        .consolidated, none, none, none, none⟩ ∧
    pyMaxByConf c0 rest ∈ (c0 :: rest) ∧
    (∀ u ∈ (c0 :: rest), u.confidence_score ≤
      (pyMaxByConf c0 rest).confidence_score) := by
  have hfall : fallbackAdjudication (c0 :: rest) =
      some ⟨(pyMaxByConf c0 rest).candidate_id,
        (pyMaxByConf c0 rest).metric_name, (pyMaxByConf c0 rest).value,
        (pyMaxByConf c0 rest).currency, (pyMaxByConf c0 rest).scale, pd,
        .consolidated, none, none, none, none⟩ := by
    unfold fallbackAdjudication
    dsimp only
    unfold candidateToMetric
    rw [hbest]
  refine ⟨?_, pyMaxByConf_mem rest c0, pyMaxByConf_ge rest c0⟩
  rcases hout with h | h | h | ⟨sel, conf, reasoning, alt, h, hfind⟩
  · subst h; exact hfall
  · subst h; exact hfall
  · subst h; exact hfall
  · subst h
    unfold adjudicateGroup
    dsimp only
    rw [hfind]
    exact hfall

/-- C9 (witness): the fallback theorem at a two-candidate group with a
missing LLM client; the second candidate has the higher confidence and
is the one selected. -/
theorem claim9_adjudicator_fallback_witness :
    (adjudicateGroup [c9A, c9B] .noClient =
      some ⟨(pyMaxByConf c9A [c9B]).candidate_id,
        (pyMaxByConf c9A [c9B]).metric_name,
        (pyMaxByConf c9A [c9B]).value, (pyMaxByConf c9A [c9B]).currency,
        (pyMaxByConf c9A [c9B]).scale, ⟨2023, 12, 31⟩, .consolidated,
        none, none, none, none⟩ ∧
      pyMaxByConf c9A [c9B] ∈ [c9A, c9B] ∧
      (∀ u ∈ [c9A, c9B], u.confidence_score ≤
        (pyMaxByConf c9A [c9B]).confidence_score)) ∧
    pyMaxByConf c9A [c9B] = c9B :=
  ⟨claim9_adjudicator_fallback c9A [c9B] .noClient ⟨2023, 12, 31⟩
    (by decide) (Or.inl rfl), by decide⟩

/-- The confidence formula exactly as the claim states it: its section
bonus set names `cash_flow` where the source names
`cash_flow_statement`.  Defined from the claim text, for comparison with
`scoreCandidate` only. -/
def claimConfidence (c : CandidateValue) : Rat :=
  mkRat (((if c.source == EvidenceSource.table_cell then 40 else 20) +
    (if c.section_type == "income_statement" ||
        c.section_type == "balance_sheet" ||
        c.section_type == "cash_flow" then 20
     else if c.section_type == "notes" || c.section_type == "commentary"
       then 10 else 0) +
    (if c.period_end_date.isSome then 20 else 0) +
    min 20 ((c.evidence.filter (fun kv => kv.2.isSome)).length * 3) :
    Nat) : Int) 100

/-- A table-cell candidate from a section the locator labels
`cash_flow`, with no period and no evidence fields. -/
def c6Cand : CandidateValue :=
  ⟨"cand-cf", "net_cash_flow", mkRat 300 1, "GBP", "millions", none,
   "cash_flow", .table_cell, 0, []⟩

lemma insDesc_perm (x : CandidateValue) (l : List CandidateValue) :
    (insDesc x l).Perm (x :: l) := by
  induction l with
  | nil => exact List.Perm.refl _
  | cons y ys ih =>
    unfold insDesc
    split
    · exact List.Perm.refl _
    · exact (List.Perm.cons y ih).trans (List.Perm.swap x y ys)

lemma sortDescByConf_perm (l : List CandidateValue) :
    (sortDescByConf l).Perm l := by
  suffices h : ∀ acc, (l.foldl (fun acc x => insDesc x acc) acc).Perm
      (acc ++ l) by
    simpa [sortDescByConf] using h []
  induction l with
  | nil => intro acc; simp
  | cons x xs ih =>
    intro acc
    have h1 := ih (insDesc x acc)
    have h2 : (insDesc x acc ++ xs).Perm ((x :: acc) ++ xs) :=
      (insDesc_perm x acc).append_right xs
    have h3 : ((x :: acc) ++ xs).Perm (acc ++ x :: xs) :=
      List.perm_middle.symm
    exact h1.trans (h2.trans h3)

lemma insDesc_pairwise (x : CandidateValue) :
    ∀ l : List CandidateValue,
    List.Pairwise (fun a b : CandidateValue =>
      b.confidence_score ≤ a.confidence_score) l →
    List.Pairwise (fun a b : CandidateValue =>
      b.confidence_score ≤ a.confidence_score) (insDesc x l) := by
  intro l
  induction l with
  | nil => intro _; simp [insDesc]
  | cons y ys ih =>
    intro hp
    rw [List.pairwise_cons] at hp
    obtain ⟨hy, hys⟩ := hp
    unfold insDesc
    by_cases hlt : y.confidence_score < x.confidence_score
    · rw [if_pos hlt]
      rw [List.pairwise_cons]
      refine ⟨?_, List.pairwise_cons.mpr ⟨hy, hys⟩⟩
      intro b hb
      rcases List.mem_cons.mp hb with hb | hb
      · subst hb; exact le_of_lt hlt
      · exact le_trans (hy b hb) (le_of_lt hlt)
    · rw [if_neg hlt]
      rw [List.pairwise_cons]
      refine ⟨?_, ih hys⟩
      intro b hb
      rcases List.mem_cons.mp ((insDesc_perm x ys).mem_iff.mp hb)
        with hb | hb
      · subst hb; exact not_lt.mp hlt
      · exact hy b hb

lemma sortDescByConf_pairwise (l : List CandidateValue) :
    List.Pairwise (fun a b : CandidateValue =>
      b.confidence_score ≤ a.confidence_score) (sortDescByConf l) := by
  suffices h : ∀ acc,
      List.Pairwise (fun a b : CandidateValue =>
        b.confidence_score ≤ a.confidence_score) acc →
      List.Pairwise (fun a b : CandidateValue =>
        b.confidence_score ≤ a.confidence_score)
        (l.foldl (fun acc x => insDesc x acc) acc) by
    exact h [] (by simp)
  induction l with
  | nil => intro acc h; exact h
  | cons x xs ih => intro acc h; exact ih _ (insDesc_pairwise x acc h)

/-- C6 (counterexample): the claimed formula disagrees with the code on
the section bonus: the scorer compares the section type against
`cash_flow_statement`, while the section locator (and the claim) use the
label `cash_flow`, which therefore earns no section bonus at all — a
table-cell candidate from a `cash_flow` section with no period and no
evidence scores 0.40, not the claimed 0.60. -/
theorem claim6_scoring_cex :
    scoreCandidates [c6Cand] =
      [{ c6Cand with confidence_score := mkRat 40 100 }] ∧
    scoreCandidate c6Cand = mkRat 40 100 ∧
    claimConfidence c6Cand = mkRat 60 100 ∧
    scoreCandidate c6Cand ≠ claimConfidence c6Cand ∧
    c6Cand.source = EvidenceSource.table_cell ∧
    c6Cand.section_type = "cash_flow" := by decide

/-- C6 (amended): `_score_candidates` returns a permutation of the input
in which every confidence is the source formula (whose section bonus set
names `cash_flow_statement`, so a locator-labelled `cash_flow` section
earns no bonus), sorted descending by confidence; the claimed formula
agrees with the code on every candidate whose section type is neither
`cash_flow` nor `cash_flow_statement`. -/
theorem claim6_scoring_amended (cands : List CandidateValue) :
    (scoreCandidates cands).Perm
      (cands.map (fun c =>
        { c with confidence_score := scoreCandidate c })) ∧
    List.Pairwise (fun a b : CandidateValue =>
      b.confidence_score ≤ a.confidence_score) (scoreCandidates cands) ∧
    (∀ c ∈ scoreCandidates cands, ∃ c0 ∈ cands,
      c = { c0 with confidence_score := scoreCandidate c0 }) ∧
    (∀ c : CandidateValue, c.section_type ≠ "cash_flow" →
      c.section_type ≠ "cash_flow_statement" →
      scoreCandidate c = claimConfidence c) := by
  refine ⟨sortDescByConf_perm _, sortDescByConf_pairwise _, ?_, ?_⟩
  · intro c hc
    have hmem : c ∈ cands.map (fun c =>
        { c with confidence_score := scoreCandidate c }) :=
      (sortDescByConf_perm _).mem_iff.mp hc
    obtain ⟨c0, hc0, heq⟩ := List.mem_map.mp hmem
    exact ⟨c0, hc0, heq.symm⟩
  · intro c h1 h2
    unfold scoreCandidate claimConfidence
    have e1 : (c.section_type == "cash_flow") = false :=
      beq_eq_false_iff_ne.mpr h1
    have e2 : (c.section_type == "cash_flow_statement") = false :=
      beq_eq_false_iff_ne.mpr h2
    rw [e1, e2]
    cases c.source <;> rfl

lemma mkDate_error_valueError {y : Int} {m d : Nat} {e : PyErr}
    (h : mkDate y m d = .error e) : e = .valueError := by
  unfold mkDate at h
  split at h
  · exact absurd h (by simp)
  · injection h with h; exact h.symm

/-- Candidate whose ratio and YoY checks hit both zero-denominator guards:
gross profit at 2023-12-31 with a zero same-period revenue and a zero
prior-year value. -/
def c10Cand : CandidateValue :=
  ⟨"cand-gp", "gross_profit", mkRat 5 1, "GBP", "millions",
   some ⟨2023, 12, 31⟩, "income_statement", .table_cell, 0, []⟩

/-- Same-period revenue candidate with value zero. -/
def c10Rev : CandidateValue :=
  ⟨"cand-rev", "revenue", mkRat 0 1, "GBP", "millions",
   some ⟨2023, 12, 31⟩, "income_statement", .table_cell, 0, []⟩

/-- Prior-year gross-profit candidate with value zero. -/
def c10Prior : CandidateValue :=
  ⟨"cand-prev", "gross_profit", mkRat 0 1, "GBP", "millions",
   some ⟨2022, 12, 31⟩, "income_statement", .table_cell, 0, []⟩

/-- C10: the validator ratio computations are division-guarded: the range
check and the YoY check never evaluate a division by zero (and neither
does `_validate_candidate` as a whole); when the same-period revenue is
zero the range check passes without dividing, and when the prior-year
value is zero the YoY check passes without dividing. -/
theorem claim10_division_guards (c : CandidateValue)
    (all : List CandidateValue) :
    checkRangeBounds c all ≠ .error .divByZero ∧
    checkYoYDelta c all ≠ .error .divByZero ∧
    (∀ tol, validateCandidate c all tol ≠ .error .divByZero) ∧
    (∀ rev bd, findMetric all "revenue" c.period_end_date = some rev →
      tblLookup METRIC_BOUNDS c.metric_name = some bd → rev.value = 0 →
      checkRangeBounds c all =
        .ok ⟨true, "Revenue is zero, cannot compute ratio"⟩) ∧
    (∀ d pd prev, c.period_end_date = some d →
      mkDate ((d.year : Int) - 1) d.month d.day = .ok pd →
      findMetric all c.metric_name (some pd) = some prev →
      prev.value = 0 →
      checkYoYDelta c all =
        .ok (some ⟨true, "Prior year value is zero"⟩)) := by
  have hA : checkRangeBounds c all ≠ .error .divByZero := by
    unfold checkRangeBounds
    cases hfm : findMetric all "revenue" c.period_end_date with
    | none => simp
    | some revenue =>
      cases htb : tblLookup METRIC_BOUNDS c.metric_name with
      | none => simp
      | some bd =>
        dsimp only
        split
        · simp
        · rename_i hne
          rw [safeDiv, if_neg (by simpa using hne), ebind_ok]
          split <;> simp [pure, Except.pure]
  have hB : checkYoYDelta c all ≠ .error .divByZero := by
    unfold checkYoYDelta
    cases hd : c.period_end_date with
    | none => simp
    | some d =>
      dsimp only
      cases hmd : mkDate ((d.year : Int) - 1) d.month d.day with
      | error e =>
        have he := mkDate_error_valueError hmd
        subst he
        rw [ebind_err]
        simp
      | ok pd =>
        rw [ebind_ok]
        cases hfm : findMetric all c.metric_name (some pd) with
        | none => simp [pure, Except.pure]
        | some prev =>
          dsimp only
          split
          · simp [pure, Except.pure]
          · rename_i hne
            rw [safeDiv, if_neg (by simpa using hne), ebind_ok]
            cases htb : tblLookup YOY_BOUNDS c.metric_name with
            | none => simp [pure, Except.pure]
            | some bd =>
              dsimp only
              split <;> simp [pure, Except.pure]
  have hC : ∀ tol, validateCandidate c all tol ≠ .error .divByZero := by
    intro tol hcon
    unfold validateCandidate at hcon
    cases hrg : checkRangeBounds c all with
    | error e =>
      rw [hrg, ebind_err] at hcon
      injection hcon with hcon
      exact hA (by rw [hrg, hcon])
    | ok rg =>
      rw [hrg, ebind_ok] at hcon
      cases hyoy : checkYoYDelta c all with
      | error e =>
        rw [hyoy, ebind_err] at hcon
        injection hcon with hcon
        exact hB (by rw [hyoy, hcon])
      | ok yoy =>
        rw [hyoy, ebind_ok] at hcon
        simp [pure, Except.pure] at hcon
  have hD : ∀ rev bd,
      findMetric all "revenue" c.period_end_date = some rev →
      tblLookup METRIC_BOUNDS c.metric_name = some bd → rev.value = 0 →
      checkRangeBounds c all =
        .ok ⟨true, "Revenue is zero, cannot compute ratio"⟩ := by
    intro rev bd hfm htb hz
    unfold checkRangeBounds
    rw [hfm]
    dsimp only
    rw [htb]
    dsimp only
    rw [if_pos (by simp [hz])]
  have hE : ∀ d pd prev, c.period_end_date = some d →
      mkDate ((d.year : Int) - 1) d.month d.day = .ok pd →
      findMetric all c.metric_name (some pd) = some prev →
      prev.value = 0 →
      checkYoYDelta c all =
        .ok (some ⟨true, "Prior year value is zero"⟩) := by
    intro d pd prev hd hmd hfm hz
    unfold checkYoYDelta
    rw [hd]
    dsimp only
    rw [hmd, ebind_ok, hfm]
    dsimp only
    rw [if_pos (by simp [hz])]
    rfl
  exact ⟨hA, hB, hC, hD, hE⟩

/-- C10 (witness): both guards observed at a concrete candidate set with a
zero same-period revenue and a zero prior-year value. -/
theorem claim10_division_guards_witness :
    checkRangeBounds c10Cand [c10Cand, c10Rev, c10Prior] =
      .ok ⟨true, "Revenue is zero, cannot compute ratio"⟩ ∧
    checkYoYDelta c10Cand [c10Cand, c10Rev, c10Prior] =
      .ok (some ⟨true, "Prior year value is zero"⟩) :=
  ⟨(claim10_division_guards c10Cand [c10Cand, c10Rev, c10Prior]).2.2.2.1
      c10Rev (0, 1) (by decide) (by decide) (by decide),
   (claim10_division_guards c10Cand [c10Cand, c10Rev, c10Prior]).2.2.2.2
      ⟨2023, 12, 31⟩ ⟨2022, 12, 31⟩ c10Prior rfl (by decide) (by decide)
      (by decide)⟩

end FinAgent
